import Mathlib

/-!
# memserv-light: formal model and verification

A shallow embedding of the core of the `memserv-light` repository:

* the RESP wire codec (`src/serializer/serializer.ts`: `serialize`,
  `deserialize`, `parseValue`);
* the TTL-aware key-value store (`src/store/database.ts`: class `Database`);
* the command parser/dispatcher (`src/memserv/index.ts`: `MemServLight.parse`,
  `MemServLight.execute`);
* the append-only persister and the replay loop
  (`src/store/persistence.ts`: class `AppendOnlyPersister`, `restoreFromFile`).

JavaScript strings are modelled as `List Char`, JavaScript numbers that the
code actually manipulates (integers) as `Int`, and `Date.now()` as an explicit
`now : Int` parameter.  All definitions are executable; recursive parsers use
an explicit fuel argument whose initial value is large enough to make the
out-of-fuel branch unreachable (see the comments at each definition).
-/

namespace MemServ

/-- JavaScript strings, modelled character by character. -/
abbrev Str := List Char

/-- The two-character line terminator `CRLF` used by the codec. -/
def crlf : Str := ['\r', '\n']

/-! ## Decimal numerals and `parseInt`

`String(n)` for an integral JavaScript number prints the usual decimal
numeral; `parseInt(s, 10)` skips leading whitespace, accepts an optional
sign, consumes the longest prefix of decimal digits (ignoring anything
after it) and yields `NaN` when no digit is found.
-/

/-- The decimal digit character for `d` (used with `d < 10`). -/
def digitChar (d : Nat) : Char :=
  match d with
  | 0 => '0' | 1 => '1' | 2 => '2' | 3 => '3' | 4 => '4'
  | 5 => '5' | 6 => '6' | 7 => '7' | 8 => '8' | _ => '9'

/-- Is `c` a decimal digit? -/
def isDigit (c : Char) : Bool := '0' ≤ c && c ≤ '9'

/-- Numeric value of a digit character. -/
def digitVal (c : Char) : Nat := c.toNat - 48

/-- Decimal numeral of a natural number, most significant digit first.
The `fuel` argument makes the recursion structural; `natToChars` supplies
`n + 1`, which always suffices since `n / 10 < n` for `n ≥ 10`. -/
def natToCharsFuel : Nat → Nat → Str
  | 0, _ => []
  | f + 1, n =>
    if n < 10 then [digitChar n]
    else natToCharsFuel f (n / 10) ++ [digitChar (n % 10)]

/-- Decimal numeral of a natural number (the textual form `String(n)`). -/
def natToChars (n : Nat) : Str := natToCharsFuel (n + 1) n

/-- Decimal numeral of an integer (the textual form `String(n)` for an
integral JavaScript number). -/
def intToChars (n : Int) : Str :=
  if n < 0 then '-' :: natToChars n.natAbs else natToChars n.natAbs

/-- JavaScript whitespace characters skipped by `parseInt` (the ASCII ones;
no input in this development contains the exotic Unicode spaces). -/
def isJsWhitespace (c : Char) : Bool :=
  c = ' ' || c = '\t' || c = '\n' || c = '\r' || c = '\x0b' || c = '\x0c'

/-- Consume the longest prefix of decimal digits, accumulating their value;
returns the accumulated value and whether at least one digit was seen. -/
def parseDigits : Nat → Bool → Str → Nat × Bool
  | acc, seen, [] => (acc, seen)
  | acc, seen, c :: cs =>
    if isDigit c then parseDigits (acc * 10 + digitVal c) true cs
    else (acc, seen)

/-- `parseInt(s, 10)`: skip whitespace, optional sign, then the longest
digit prefix; `none` models `NaN`. -/
def jsParseInt (s : Str) : Option Int :=
  match s.dropWhile isJsWhitespace with
  | [] => none
  | c :: rest =>
    if c = '-' then
      match parseDigits 0 false rest with
      | (v, true) => some (-(v : Int))
      | (_, false) => none
    else if c = '+' then
      match parseDigits 0 false rest with
      | (v, true) => some (v : Int)
      | (_, false) => none
    else
      match parseDigits 0 false (c :: rest) with
      | (v, true) => some (v : Int)
      | (_, false) => none

/-! ## Wire values

`RespValue` from `src/serializer/serializer.ts`:
`string | number | boolean | null | RespValue[]`.  Numbers are modelled as
`Int`: `serialize` throws on non-integral numbers and no other part of the
code produces one, so the integral fragment is the live one. -/

inductive RespValue : Type where
  | str : Str → RespValue
  | int : Int → RespValue
  | bool : Bool → RespValue
  | null : RespValue
  | arr : List RespValue → RespValue

/- `String(v)` for a decoded value, as used by the parser's coercions:
a string is itself, a number prints in decimal, `null` prints `"null"`,
booleans print `"true"`/`"false"`, and an array joins its elements with
`','` (with `null` elements contributing the empty string, as
`Array.prototype.join` does). -/
mutual
/-- `String(v)` for a decoded value. -/
def jsToString : RespValue → Str
  | .str s => s
  | .int n => intToChars n
  | .bool b => if b then ['t','r','u','e'] else ['f','a','l','s','e']
  | .null => ['n','u','l','l']
  | .arr xs => jsJoinComma xs

/-- `Array.prototype.toString`: elements joined with `','`. -/
def jsJoinComma : List RespValue → Str
  | [] => []
  | [x] => jsElemStr x
  | x :: xs => jsElemStr x ++ ',' :: jsJoinComma xs

/-- Element rendering inside `Array.prototype.join`: `null` contributes the
empty string, every other value its `String(…)` form. -/
def jsElemStr : RespValue → Str
  | .null => []
  | .str s => s
  | .int n => intToChars n
  | .bool b => if b then ['t','r','u','e'] else ['f','a','l','s','e']
  | .arr xs => jsJoinComma xs
end

/-- JavaScript truthiness of a decoded value (`''`, `0`, `false`, `null`
are falsy; arrays are objects, hence truthy). -/
def jsTruthy : RespValue → Bool
  | .str s => !s.isEmpty
  | .int n => n ≠ 0
  | .bool b => b
  | .null => false
  | .arr _ => true

/-! ## `serialize` (src/serializer/serializer.ts, lines 28–54)

null → `$-1\r\n`; string → `+…\r\n`; number → `:…\r\n` (only integers
occur, so the `Number.isInteger` throw is unreachable in the model);
boolean → `:1\r\n` / `:0\r\n`; array → `*n\r\n` followed by the
serialization of each element.  The bulk-string fallback for foreign
objects is unreachable: every `RespValue` is one of the above. -/

def nullBulkString : Str := ['$', '-', '1', '\r', '\n']

mutual
def serialize : RespValue → Str
  | .null => nullBulkString
  | .str s => '+' :: (s ++ crlf)
  | .int n => ':' :: (intToChars n ++ crlf)
  | .bool b => ':' :: ((if b then ['1'] else ['0']) ++ crlf)
  | .arr xs => ('*' :: (natToChars xs.length ++ crlf)) ++ serializeList xs

def serializeList : List RespValue → Str
  | [] => []
  | v :: vs => serialize v ++ serializeList vs
end

/-! ## Line splitting

`deserialize` begins with `data.split('\r\n')`; we model the split on
character lists.  JavaScript's `split` scans left to right, so a `'\r'`
that is not followed by `'\n'` stays in its segment, and a trailing
separator produces a trailing empty segment. -/

/-- Helper: prepend a character to the first segment of a split result. -/
def consHead (c : Char) : List Str → List Str
  | [] => [[c]]
  | l :: ls => (c :: l) :: ls

/-- `s.split('\r\n')` on character lists. -/
def splitCRLF : Str → List Str
  | [] => [[]]
  | [c] => [[c]]
  | a :: b :: rest =>
    if a = '\r' ∧ b = '\n' then [] :: splitCRLF rest
    else consHead a (splitCRLF (b :: rest))

/-- Does the two-character sequence `"\r\n"` occur in `s`? -/
def hasCRLF : Str → Bool
  | [] => false
  | [_] => false
  | a :: b :: rest => decide (a = '\r' ∧ b = '\n') || hasCRLF (b :: rest)

/-! ## `deserialize` / `parseValue` (src/serializer/serializer.ts, lines 56–137)

Decoding errors: `RespSerializeError` (a distinguished parse error whose
message may embed an offending line index) and the plain `Error` thrown for
a wire-level error line. -/

inductive DErr : Type where
  /-- `RespSerializeError(message, index?)` — the distinguished parse error;
  the second component is the line index it carries, when any. -/
  | resp : String → Option Nat → DErr
  | plain : String → DErr
deriving DecidableEq

/-- Message text of an error, as used when the array loop re-wraps a caught
exception. -/
def DErr.message : DErr → String
  | .resp m _ => m
  | .plain m => m

mutual
/-- `parseValue(lines, index)` (and the `for` loop over array elements),
with an explicit `fuel` argument making the recursion structural.  Every
recursive call either consumes a line or terminates the run, so a chain of
nested/sequenced calls starting from `deserialize`'s initial fuel
(`4 * lines.length + 16`) can never exhaust it; the out-of-fuel branch
repeats the source's end-of-input error, which is what the source does at
any index a run that long would reach. -/
def parseValue (lines : List Str) : Nat → Nat → Except DErr (RespValue × Nat)
  | 0, index => .error (.resp "Unexpected end of input" (some index))
  | fuel + 1, index =>
    if lines.length ≤ index then
      .error (.resp "Unexpected end of input" (some index))
    else
      match lines.getD index [] with
      | [] => .error (.resp "Empty line encountered" (some index))
      | typeIndicator :: content =>
        if typeIndicator = '+' then
          .ok (.str content, index + 1)
        else if typeIndicator = ':' then
          match jsParseInt content with
          | none => .error (.resp ("Invalid integer: " ++ String.mk content) (some index))
          | some value => .ok (.int value, index + 1)
        else if typeIndicator = '$' then
          match jsParseInt content with
          | none => .error (.resp ("Invalid bulk string length: " ++ String.mk content) (some index))
          | some length =>
            if length = -1 then .ok (.null, index + 1)
            else if length = 0 then .ok (.str [], index + 2)
            else if lines.length ≤ index + 1 then
              .error (.resp "Missing bulk string data" (some index))
            else .ok (.str (lines.getD (index + 1) []), index + 2)
        else if typeIndicator = '*' then
          match jsParseInt content with
          | none => .error (.resp ("Invalid array length: " ++ String.mk content) (some index))
          | some arrayLength =>
            if arrayLength = 0 then .ok (.arr [], index + 1)
            else parseElems lines fuel arrayLength.toNat 0 [] (index + 1)
        else if typeIndicator = '-' then
          .error (.plain ("Server error: " ++ String.mk content))
        else
          .ok (.str content, index + 1)

/-- The `for (let i = 0; i < arrayLength; i++)` loop of the array case:
`count` iterations remain, `i` is the element number (for the error
message), `acc` holds the elements parsed so far (reversed). -/
def parseElems (lines : List Str) : Nat → Nat → Nat → List RespValue → Nat →
    Except DErr (RespValue × Nat)
  | 0, _, _, _, currentIndex =>
    .error (.resp "Unexpected end of input" (some currentIndex))
  | _ + 1, 0, _, acc, currentIndex => .ok (.arr acc.reverse, currentIndex)
  | fuel + 1, count + 1, i, acc, currentIndex =>
    match parseValue lines fuel currentIndex with
    | .ok (v, nextIndex) => parseElems lines fuel count (i + 1) (v :: acc) nextIndex
    | .error e =>
      .error (.resp ("Error parsing array element " ++ toString i ++ ": " ++ e.message)
        (some currentIndex))
end

/-- `deserialize(data)` (src/serializer/serializer.ts, lines 56–63):
empty-input check, split on CRLF, then `parseValue(lines, 0).value`
(a decoding exception propagates). -/
def deserialize (data : Str) : Except DErr RespValue :=
  if data.isEmpty then .error (.resp "Empty input data" none)
  else
    match parseValue (splitCRLF data) (4 * (splitCRLF data).length + 16) 0 with
    | .ok r => .ok r.1
    | .error e => .error e

/-! ## Numeral lemmas -/

theorem digitVal_digitChar {d : Nat} (h : d < 10) : digitVal (digitChar d) = d := by
  interval_cases d <;> rfl

theorem isDigit_digitChar {d : Nat} (h : d < 10) : isDigit (digitChar d) = true := by
  interval_cases d <;> rfl

theorem natToCharsFuel_norm : ∀ n f, n < f → natToCharsFuel f n = natToChars n := by
  intro n
  induction n using Nat.strong_induction_on with
  | _ n ih =>
    intro f hf
    match f, hf with
    | f + 1, _ =>
      unfold natToChars
      by_cases h10 : n < 10
      · simp [natToCharsFuel, h10]
      · have hdiv : n / 10 < n := Nat.div_lt_self (by omega) (by omega)
        simp only [natToCharsFuel, if_neg h10]
        rw [ih _ hdiv f (by omega), ih _ hdiv n (by omega)]

theorem natToChars_eq (n : Nat) (h : ¬ n < 10) :
    natToChars n = natToChars (n / 10) ++ [digitChar (n % 10)] := by
  have hdiv : n / 10 < n := Nat.div_lt_self (by omega) (by omega)
  unfold natToChars
  simp only [natToCharsFuel, if_neg h]
  rw [natToCharsFuel_norm (n / 10) n (by omega)]
  rfl

theorem natToChars_lt (n : Nat) (h : n < 10) : natToChars n = [digitChar n] := by
  simp [natToChars, natToCharsFuel, h]

theorem natToChars_ne_nil (n : Nat) : natToChars n ≠ [] := by
  by_cases h : n < 10
  · simp [natToChars_lt n h]
  · simp [natToChars_eq n h]

theorem natToChars_all_digit (n : Nat) : ∀ c ∈ natToChars n, isDigit c = true := by
  by_cases h : n < 10
  · simpa [natToChars_lt n h] using isDigit_digitChar h
  · have hdiv : n / 10 < n := Nat.div_lt_self (by omega) (by omega)
    have ih := natToChars_all_digit (n / 10)
    simp only [natToChars_eq n h, List.mem_append, List.mem_singleton]
    rintro c (hc | rfl)
    · exact ih c hc
    · exact isDigit_digitChar (Nat.mod_lt _ (by omega))
termination_by n

/-- Accumulated decimal value of a digit string. -/
def charsVal (acc : Nat) (ds : Str) : Nat :=
  ds.foldl (fun a c => a * 10 + digitVal c) acc

theorem parseDigits_all_digit :
    ∀ (ds : Str) (acc : Nat) (seen : Bool), (∀ c ∈ ds, isDigit c = true) →
      parseDigits acc seen ds = (charsVal acc ds, seen || !ds.isEmpty) := by
  intro ds
  induction ds with
  | nil => intro acc seen _; simp [parseDigits, charsVal]
  | cons c cs ih =>
    intro acc seen h
    have hc : isDigit c = true := h c (by simp)
    simp only [parseDigits, hc, if_pos rfl, if_true]
    rw [ih _ true fun x hx => h x (by simp [hx])]
    simp [charsVal]

theorem charsVal_acc : ∀ (ds : Str) (acc : Nat),
    charsVal acc ds = acc * 10 ^ ds.length + charsVal 0 ds := by
  intro ds
  induction ds with
  | nil => intro acc; simp [charsVal]
  | cons c cs ih =>
    intro acc
    simp only [charsVal, List.foldl_cons] at *
    rw [ih (acc * 10 + digitVal c), ih (0 * 10 + digitVal c)]
    ring_nf
    simp [List.length_cons, pow_succ]
    ring

theorem charsVal_natToChars (n : Nat) : charsVal 0 (natToChars n) = n := by
  by_cases h : n < 10
  · simp [natToChars_lt n h, charsVal, digitVal_digitChar h]
  · have hdiv : n / 10 < n := Nat.div_lt_self (by omega) (by omega)
    have ih := charsVal_natToChars (n / 10)
    rw [natToChars_eq n h]
    simp only [charsVal, List.foldl_append, List.foldl_cons, List.foldl_nil]
    have : List.foldl (fun a c => a * 10 + digitVal c) 0 (natToChars (n / 10)) = n / 10 := ih
    rw [this, digitVal_digitChar (Nat.mod_lt _ (by omega))]
    omega
termination_by n

theorem isDigit_not_whitespace {c : Char} (h : isDigit c = true) :
    isJsWhitespace c = false := by
  simp only [isDigit, Bool.and_eq_true, decide_eq_true_eq] at h
  simp only [isJsWhitespace]
  obtain ⟨h1, h2⟩ := h
  simp only [Bool.or_eq_false_iff, decide_eq_false_iff_not]
  refine ⟨⟨⟨⟨⟨?_, ?_⟩, ?_⟩, ?_⟩, ?_⟩, ?_⟩ <;>
    (rintro rfl <;> revert h1 h2 <;> decide)

theorem dropWhile_not_head {p : Char → Bool} :
    ∀ (s : Str), (s = [] ∨ p (s.headD ' ') = false) → s.dropWhile p = s := by
  intro s h
  cases s with
  | nil => rfl
  | cons c cs =>
    rcases h with h | h
    · exact absurd h (by simp)
    · simp only [List.headD_cons] at h
      simp [List.dropWhile, h]

theorem jsParseInt_natToChars (n : Nat) : jsParseInt (natToChars n) = some (n : Int) := by
  have hall := natToChars_all_digit n
  have hne := natToChars_ne_nil n
  obtain ⟨c, cs, hcs⟩ : ∃ c cs, natToChars n = c :: cs := by
    cases hnc : natToChars n with
    | nil => exact absurd hnc hne
    | cons c cs => exact ⟨c, cs, rfl⟩
  have hc : isDigit c = true := hall c (by simp [hcs])
  have hdrop : (natToChars n).dropWhile isJsWhitespace = c :: cs := by
    rw [hcs]
    apply dropWhile_not_head
    right
    simpa using isDigit_not_whitespace hc
  have hcne : c ≠ '-' ∧ c ≠ '+' := by
    constructor <;> (rintro rfl; revert hc; decide)
  have hpd : parseDigits 0 false (c :: cs) = (n, true) := by
    rw [← hcs, parseDigits_all_digit _ _ _ hall, charsVal_natToChars n]
    simp [hcs]
  unfold jsParseInt
  rw [hdrop]
  simp [if_neg hcne.1, if_neg hcne.2, hpd]

theorem jsParseInt_intToChars (z : Int) : jsParseInt (intToChars z) = some z := by
  by_cases hz : z < 0
  · have hne := natToChars_ne_nil z.natAbs
    obtain ⟨c, cs, hcs⟩ : ∃ c cs, natToChars z.natAbs = c :: cs := by
      cases hnc : natToChars z.natAbs with
      | nil => exact absurd hnc hne
      | cons c cs => exact ⟨c, cs, rfl⟩
    have hpd : parseDigits 0 false (natToChars z.natAbs) = (z.natAbs, true) := by
      rw [parseDigits_all_digit _ _ _ (natToChars_all_digit _), charsVal_natToChars]
      simp [hcs]
    have hdrop : ('-' :: natToChars z.natAbs).dropWhile isJsWhitespace
        = '-' :: natToChars z.natAbs := by
      apply dropWhile_not_head
      right
      simp
      decide
    have habs : (-(z.natAbs : Int)) = z := by omega
    unfold intToChars jsParseInt
    rw [if_pos hz, hdrop]
    simp only [if_pos rfl, hpd]
    simp only [if_true]
    rw [habs]
  · have habs : ((z.natAbs : Int)) = z := by omega
    unfold intToChars
    rw [if_neg hz, jsParseInt_natToChars, habs]

/-! ## Splitting lemmas -/

theorem splitCRLF_ne_nil : ∀ s, splitCRLF s ≠ [] := by
  intro s
  match s with
  | [] => simp [splitCRLF]
  | [c] => simp [splitCRLF]
  | a :: b :: rest =>
    show (if a = '\r' ∧ b = '\n' then [] :: splitCRLF rest
      else consHead a (splitCRLF (b :: rest))) ≠ []
    by_cases h : a = '\r' ∧ b = '\n'
    · simp [h]
    · rw [if_neg h]
      cases splitCRLF (b :: rest) <;> simp [consHead]

theorem splitCRLF_append :
    ∀ (l r : Str), hasCRLF l = false →
      splitCRLF (l ++ '\r' :: '\n' :: r) = l :: splitCRLF r := by
  intro l
  match l with
  | [] =>
    intro r _
    show (if '\r' = '\r' ∧ '\n' = '\n' then [] :: splitCRLF r
      else consHead '\r' (splitCRLF ('\n' :: r))) = [] :: splitCRLF r
    rw [if_pos ⟨rfl, rfl⟩]
  | [c] =>
    intro r h
    show (if c = '\r' ∧ '\r' = '\n' then [] :: splitCRLF ('\n' :: r)
      else consHead c (splitCRLF ('\r' :: '\n' :: r))) = [c] :: splitCRLF r
    rw [if_neg (by simp)]
    show consHead c (if '\r' = '\r' ∧ '\n' = '\n' then [] :: splitCRLF r
      else consHead '\r' (splitCRLF ('\n' :: r))) = _
    rw [if_pos ⟨rfl, rfl⟩]
    rfl
  | a :: b :: t =>
    intro r h
    have hab : ¬(a = '\r' ∧ b = '\n') := by
      unfold hasCRLF at h
      rcases Bool.or_eq_false_iff.mp h with ⟨h1, _⟩
      simpa using h1
    have ht : hasCRLF (b :: t) = false := by
      unfold hasCRLF at h
      rcases Bool.or_eq_false_iff.mp h with ⟨_, h2⟩
      exact h2
    show (if a = '\r' ∧ b = '\n' then [] :: splitCRLF (t ++ '\r' :: '\n' :: r)
      else consHead a (splitCRLF (b :: (t ++ '\r' :: '\n' :: r)))) = (a :: b :: t) :: splitCRLF r
    rw [if_neg hab]
    rw [show b :: (t ++ '\r' :: '\n' :: r) = (b :: t) ++ '\r' :: '\n' :: r from rfl]
    rw [splitCRLF_append (b :: t) r ht]
    rfl

/-- Lines of a serialized value, in order; `serialize v` is these lines each
followed by CRLF. -/
def serializeLines : RespValue → List Str
  | .null => [['$', '-', '1']]
  | .str s => ['+' :: s]
  | .int n => [':' :: intToChars n]
  | .bool b => [':' :: if b then ['1'] else ['0']]
  | .arr xs => ('*' :: natToChars xs.length) :: serializeLinesList xs
where
  serializeLinesList : List RespValue → List Str
  | [] => []
  | v :: vs => serializeLines v ++ serializeLinesList vs

/-- Concatenate lines, terminating each with CRLF. -/
def joinLines : List Str → Str
  | [] => []
  | l :: ls => l ++ '\r' :: '\n' :: joinLines ls

theorem joinLines_append : ∀ (xs ys : List Str),
    joinLines (xs ++ ys) = joinLines xs ++ joinLines ys := by
  intro xs
  induction xs with
  | nil => simp [joinLines]
  | cons x xs ih => intro ys; simp [joinLines, ih]

mutual
theorem serialize_eq_joinLines : ∀ v, serialize v = joinLines (serializeLines v)
  | .null => rfl
  | .str s => by simp [serialize, serializeLines, joinLines, crlf]
  | .int n => by simp [serialize, serializeLines, joinLines, crlf]
  | .bool b => by cases b <;> simp [serialize, serializeLines, joinLines, crlf]
  | .arr xs => by
    show ('*' :: (natToChars xs.length ++ crlf)) ++ serializeList xs = _
    rw [serializeList_eq_joinLines xs]
    simp [serializeLines, joinLines, crlf]

theorem serializeList_eq_joinLines :
    ∀ ws, serializeList ws = joinLines (serializeLines.serializeLinesList ws)
  | [] => rfl
  | w :: ws' => by
    show serialize w ++ serializeList ws' = _
    rw [serialize_eq_joinLines w, serializeList_eq_joinLines ws']
    rw [← joinLines_append]
    rfl
end

/-- Splitting a CRLF-joined line list followed by a remainder recovers the
lines, provided no line contains CRLF itself. -/
theorem splitCRLF_joinLines :
    ∀ (ls : List Str) (r : Str), (∀ l ∈ ls, hasCRLF l = false) →
      splitCRLF (joinLines ls ++ r) = ls ++ splitCRLF r := by
  intro ls
  induction ls with
  | nil => intro r _; simp [joinLines]
  | cons l ls ih =>
    intro r h
    show splitCRLF ((l ++ '\r' :: '\n' :: joinLines ls) ++ r) = _
    rw [List.append_assoc]
    show splitCRLF (l ++ '\r' :: '\n' :: (joinLines ls ++ r)) = _
    rw [splitCRLF_append l _ (h l (by simp))]
    rw [ih r fun x hx => h x (by simp [hx])]
    rfl

/-! ## Representable values and the round-trip law -/

/-- The representable wire values of the round-trip law: every value built
from integers, booleans, null, arrays, and strings that do not contain the
two-character line terminator (the documented caller contract for simple
strings). -/
inductive Representable : RespValue → Prop where
  | str {s : Str} : hasCRLF s = false → Representable (.str s)
  | int {n : Int} : Representable (.int n)
  | bool {b : Bool} : Representable (.bool b)
  | null : Representable .null
  | arr {xs : List RespValue} : (∀ v ∈ xs, Representable v) → Representable (.arr xs)

mutual
/-- What a value becomes after one encode/decode round trip: booleans decode
as the integers 1/0 (the serializer emits `:1`/`:0` for them); everything
else is unchanged. -/
def stripBool : RespValue → RespValue
  | .bool b => .int (if b then 1 else 0)
  | .arr xs => .arr (stripBoolList xs)
  | v => v

def stripBoolList : List RespValue → List RespValue
  | [] => []
  | v :: vs => stripBool v :: stripBoolList vs
end

mutual
/-- Fuel needed by `parseValue` to consume a serialized value. -/
def cost : RespValue → Nat
  | .arr xs => 2 + costList xs
  | _ => 1

def costList : List RespValue → Nat
  | [] => 0
  | v :: vs => (cost v + 1) + costList vs
end

theorem digit_ne_cr {c : Char} (h : isDigit c = true) : c ≠ '\r' := by
  rintro rfl
  revert h
  decide

theorem hasCRLF_no_cr : ∀ (l : Str), (∀ c ∈ l, c ≠ '\r') → hasCRLF l = false := by
  intro l
  match l with
  | [] => intro _; rfl
  | [c] => intro _; rfl
  | a :: b :: t =>
    intro h
    show (decide (a = '\r' ∧ b = '\n') || hasCRLF (b :: t)) = false
    rw [hasCRLF_no_cr (b :: t) fun c hc => h c (by simp at hc ⊢; tauto)]
    have := h a (by simp)
    simp [this]

theorem hasCRLF_cons {c : Char} {s : Str} (hc : c ≠ '\r') (hs : hasCRLF s = false) :
    hasCRLF (c :: s) = false := by
  match s with
  | [] => rfl
  | b :: t =>
    show (decide (c = '\r' ∧ b = '\n') || hasCRLF (b :: t)) = false
    simp [hc, hs]

theorem natToChars_noCRLF (n : Nat) : hasCRLF (natToChars n) = false :=
  hasCRLF_no_cr _ fun c hc => digit_ne_cr (natToChars_all_digit n c hc)

theorem intToChars_noCRLF (z : Int) : hasCRLF (intToChars z) = false := by
  unfold intToChars
  by_cases hz : z < 0
  · rw [if_pos hz]
    exact hasCRLF_cons (by decide) (natToChars_noCRLF _)
  · rw [if_neg hz]
    exact natToChars_noCRLF _

mutual
theorem serializeLines_noCRLF : ∀ v, Representable v →
    ∀ l ∈ serializeLines v, hasCRLF l = false
  | .null, _ => by
    intro l hl
    simp only [serializeLines, List.mem_singleton] at hl
    subst hl
    decide
  | .str s, hrep => by
    intro l hl
    simp only [serializeLines, List.mem_singleton] at hl
    subst hl
    cases hrep with
    | str hs => exact hasCRLF_cons (by decide) hs
  | .int n, _ => by
    intro l hl
    simp only [serializeLines, List.mem_singleton] at hl
    subst hl
    exact hasCRLF_cons (by decide) (intToChars_noCRLF n)
  | .bool b, _ => by
    intro l hl
    simp only [serializeLines, List.mem_singleton] at hl
    subst hl
    cases b <;> decide
  | .arr xs, hrep => by
    intro l hl
    simp only [serializeLines, List.mem_cons] at hl
    rcases hl with rfl | hl
    · exact hasCRLF_cons (by decide) (natToChars_noCRLF _)
    · cases hrep with
      | arr h => exact serializeLinesList_noCRLF xs h l hl

theorem serializeLinesList_noCRLF : ∀ xs, (∀ v ∈ xs, Representable v) →
    ∀ l ∈ serializeLines.serializeLinesList xs, hasCRLF l = false
  | [], _ => by intro l hl; simp [serializeLines.serializeLinesList] at hl
  | v :: vs, h => by
    intro l hl
    simp only [serializeLines.serializeLinesList, List.mem_append] at hl
    rcases hl with hl | hl
    · exact serializeLines_noCRLF v (h v (by simp)) l hl
    · exact serializeLinesList_noCRLF vs (fun w hw => h w (by simp [hw])) l hl
end

theorem getD_len {α : Type} (pre : List α) (x : α) (rest : List α) (d : α) :
    (pre ++ x :: rest).getD pre.length d = x := by
  induction pre with
  | nil => rfl
  | cons a pre ih => simpa using ih

mutual
/-- Parsing a serialized representable value embedded at position
`pre.length` of the line list consumes exactly its lines and returns
`stripBool` of it. -/
theorem parse_ser : ∀ (v : RespValue) (pre suf : List Str) (fuel : Nat),
    Representable v → cost v ≤ fuel →
    parseValue (pre ++ serializeLines v ++ suf) fuel pre.length
      = .ok (stripBool v, pre.length + (serializeLines v).length)
  | .null, pre, suf, fuel, _, hc => by
    match fuel, hc with
    | f + 1, _ =>
      have hlen : ¬((pre ++ serializeLines .null ++ suf).length ≤ pre.length) := by
        simp [serializeLines, List.length_append]
      have hget : (pre ++ serializeLines .null ++ suf).getD pre.length [] = ['$', '-', '1'] := by
        show (pre ++ [['$', '-', '1']] ++ suf).getD pre.length [] = _
        rw [List.append_assoc]
        exact getD_len pre (['$', '-', '1'] : Str) suf []
      simp only [parseValue, if_neg hlen, hget]
      rw [show jsParseInt ['-', '1'] = some (-1) from rfl]
      simp only [if_true]
      rfl
  | .str s, pre, suf, fuel, _, hc => by
    match fuel, hc with
    | f + 1, _ =>
      have hlen : ¬((pre ++ serializeLines (.str s) ++ suf).length ≤ pre.length) := by
        simp [serializeLines, List.length_append]
      have hget : (pre ++ serializeLines (.str s) ++ suf).getD pre.length [] = '+' :: s := by
        show (pre ++ ['+' :: s] ++ suf).getD pre.length [] = _
        rw [List.append_assoc]
        exact getD_len pre ('+' :: s) suf []
      simp only [parseValue, if_neg hlen, hget]
      simp only [if_true]
      rfl
  | .int n, pre, suf, fuel, _, hc => by
    match fuel, hc with
    | f + 1, _ =>
      have hlen : ¬((pre ++ serializeLines (.int n) ++ suf).length ≤ pre.length) := by
        simp [serializeLines, List.length_append]
      have hget : (pre ++ serializeLines (.int n) ++ suf).getD pre.length []
          = ':' :: intToChars n := by
        show (pre ++ [':' :: intToChars n] ++ suf).getD pre.length [] = _
        rw [List.append_assoc]
        exact getD_len pre (':' :: intToChars n) suf []
      simp only [parseValue, if_neg hlen, hget]
      simp only [if_true]
      rw [jsParseInt_intToChars n]
      rfl
  | .bool b, pre, suf, fuel, _, hc => by
    match fuel, hc with
    | f + 1, _ =>
      cases b
      · have hlen : ¬((pre ++ serializeLines (.bool false) ++ suf).length ≤ pre.length) := by
          simp [serializeLines, List.length_append]
        have hget : (pre ++ serializeLines (.bool false) ++ suf).getD pre.length []
            = ':' :: ['0'] := by
          show (pre ++ [[':', '0']] ++ suf).getD pre.length [] = _
          rw [List.append_assoc]
          exact getD_len pre ([':', '0'] : Str) suf []
        simp only [parseValue, if_neg hlen, hget]
        simp only [if_true]
        rw [show jsParseInt ['0'] = some 0 from rfl]
        rfl
      · have hlen : ¬((pre ++ serializeLines (.bool true) ++ suf).length ≤ pre.length) := by
          simp [serializeLines, List.length_append]
        have hget : (pre ++ serializeLines (.bool true) ++ suf).getD pre.length []
            = ':' :: ['1'] := by
          show (pre ++ [[':', '1']] ++ suf).getD pre.length [] = _
          rw [List.append_assoc]
          exact getD_len pre ([':', '1'] : Str) suf []
        simp only [parseValue, if_neg hlen, hget]
        simp only [if_true]
        rw [show jsParseInt ['1'] = some 1 from rfl]
        rfl
  | .arr xs, pre, suf, fuel, hrep, hc => by
    have h2 : 2 + costList xs ≤ fuel := hc
    have hf1 : 1 ≤ fuel := by omega
    match fuel, hf1, h2 with
    | f + 1, _, h2 =>
      have helems : ∀ v ∈ xs, Representable v := by
        cases hrep with | arr h => exact h
      cases xs with
      | nil =>
        have hlen : ¬((pre ++ serializeLines (.arr []) ++ suf).length ≤ pre.length) := by
          simp [serializeLines, List.length_append]
        have hget : (pre ++ serializeLines (.arr []) ++ suf).getD pre.length []
            = '*' :: natToChars 0 := by
          show (pre ++ [('*' :: natToChars 0)] ++ suf).getD pre.length [] = _
          rw [List.append_assoc]
          exact getD_len pre ('*' :: natToChars 0) suf []
        simp only [parseValue, if_neg hlen, hget]
        rfl
      | cons x rest =>
        have hlen : ¬((pre ++ serializeLines (.arr (x :: rest)) ++ suf).length
            ≤ pre.length) := by
          simp [serializeLines, List.length_append]
        have hget : (pre ++ serializeLines (.arr (x :: rest)) ++ suf).getD pre.length []
            = '*' :: natToChars (x :: rest).length := by
          show (pre ++ (('*' :: natToChars (x :: rest).length)
            :: serializeLines.serializeLinesList (x :: rest)) ++ suf).getD pre.length [] = _
          rw [List.append_assoc]
          exact getD_len pre ('*' :: natToChars (x :: rest).length) _ []
        have hcl : costList (x :: rest) + 1 ≤ f := by omega
        simp only [parseValue, if_neg hlen, hget]
        rw [jsParseInt_natToChars ((x :: rest).length)]
        show parseElems (pre ++ serializeLines (.arr (x :: rest)) ++ suf) f
          (x :: rest).length 0 [] (pre.length + 1) = _
        rw [show pre ++ serializeLines (.arr (x :: rest)) ++ suf
            = pre ++ ['*' :: natToChars (x :: rest).length]
              ++ serializeLines.serializeLinesList (x :: rest) ++ suf by
          simp [serializeLines]]
        rw [show pre.length + 1
            = (pre ++ ['*' :: natToChars (x :: rest).length]).length by simp]
        rw [parse_ser_list (x :: rest) _ suf f 0 []
          helems hcl]
        show Except.ok (RespValue.arr (stripBoolList (x :: rest)), _) = _
        congr 2
        have : (serializeLines (RespValue.arr (x :: rest))).length
            = 1 + (serializeLines.serializeLinesList (x :: rest)).length := by
          show (('*' :: natToChars (x :: rest).length)
            :: serializeLines.serializeLinesList (x :: rest)).length = _
          simp
          omega
        simp [this]
        omega
theorem parse_ser_list : ∀ (xs : List RespValue) (pre suf : List Str)
    (fuel i : Nat) (acc : List RespValue),
    (∀ v ∈ xs, Representable v) → costList xs + 1 ≤ fuel →
    parseElems (pre ++ serializeLines.serializeLinesList xs ++ suf) fuel
        xs.length i acc pre.length
      = .ok (.arr (acc.reverse ++ stripBoolList xs),
          pre.length + (serializeLines.serializeLinesList xs).length)
  | [], pre, suf, fuel, i, acc, _, hc => by
    match fuel, hc with
    | f + 1, _ =>
      show Except.ok (RespValue.arr acc.reverse, pre.length) = _
      simp [serializeLines.serializeLinesList, stripBoolList]
  | x :: rest, pre, suf, fuel, i, acc, hrep, hc => by
    match fuel, hc with
    | f + 1, _ =>
      show (match parseValue (pre ++ serializeLines.serializeLinesList (x :: rest) ++ suf)
            f pre.length with
        | .ok (v, nextIndex) =>
          parseElems (pre ++ serializeLines.serializeLinesList (x :: rest) ++ suf)
            f rest.length (i + 1) (v :: acc) nextIndex
        | .error e =>
          .error (.resp ("Error parsing array element " ++ toString i ++ ": " ++ e.message)
            (some pre.length))) = _
      have hx : Representable x := hrep x (by simp)
      have hcx : cost x ≤ f := by
        have : costList (x :: rest) = (cost x + 1) + costList rest := rfl
        omega
      have hassoc : pre ++ serializeLines.serializeLinesList (x :: rest) ++ suf
          = pre ++ serializeLines x ++ (serializeLines.serializeLinesList rest ++ suf) := by
        show pre ++ (serializeLines x ++ serializeLines.serializeLinesList rest) ++ suf = _
        simp
      rw [hassoc, parse_ser x pre _ f hx hcx]
      show parseElems (pre ++ serializeLines x ++ (serializeLines.serializeLinesList rest ++ suf))
          f rest.length (i + 1) (stripBool x :: acc)
          (pre.length + (serializeLines x).length) = _
      have hpl : pre.length + (serializeLines x).length
          = (pre ++ serializeLines x).length := by simp
      rw [hpl, show pre ++ serializeLines x ++ (serializeLines.serializeLinesList rest ++ suf)
        = (pre ++ serializeLines x) ++ serializeLines.serializeLinesList rest ++ suf by simp]
      have hcr : costList rest + 1 ≤ f := by
        have : costList (x :: rest) = (cost x + 1) + costList rest := rfl
        omega
      rw [parse_ser_list rest (pre ++ serializeLines x) suf f (i + 1) (stripBool x :: acc)
        (fun v hv => hrep v (by simp [hv])) hcr]
      congr 2
      · simp [stripBoolList]
      · show (pre ++ serializeLines x).length
            + (serializeLines.serializeLinesList rest).length
          = pre.length + (serializeLines.serializeLinesList (x :: rest)).length
        have : (serializeLines.serializeLinesList (x :: rest)).length
            = (serializeLines x).length
              + (serializeLines.serializeLinesList rest).length := by
          show (serializeLines x ++ serializeLines.serializeLinesList rest).length = _
          simp
        rw [this]
        simp
        omega
end

mutual
theorem cost_le : ∀ v, cost v + 1 ≤ 3 * (serializeLines v).length
  | .null => by simp [cost, serializeLines]
  | .str s => by simp [cost, serializeLines]
  | .int n => by simp [cost, serializeLines]
  | .bool b => by simp [cost, serializeLines]
  | .arr xs => by
    have h := costList_le xs
    show 2 + costList xs + 1
      ≤ 3 * (('*' :: natToChars xs.length) :: serializeLines.serializeLinesList xs).length
    simp only [List.length_cons]
    omega

theorem costList_le : ∀ xs, costList xs ≤ 3 * (serializeLines.serializeLinesList xs).length
  | [] => by simp [costList, serializeLines.serializeLinesList]
  | x :: rest => by
    have h1 := cost_le x
    have h2 := costList_le rest
    show (cost x + 1) + costList rest
      ≤ 3 * (serializeLines x ++ serializeLines.serializeLinesList rest).length
    simp only [List.length_append]
    omega
end

theorem serialize_ne_nil (v : RespValue) : serialize v ≠ [] := by
  cases v <;> simp [serialize, nullBulkString]

/-- Decoding an encoded representable value recovers it, with booleans
becoming the integers 1/0. -/
theorem deserialize_serialize (v : RespValue) (hrep : Representable v) :
    deserialize (serialize v) = .ok (stripBool v) := by
  have hne : ¬(serialize v).isEmpty := by
    simp [List.isEmpty_iff, serialize_ne_nil v]
  have hsplit : splitCRLF (serialize v) = serializeLines v ++ [[]] := by
    rw [serialize_eq_joinLines v, show joinLines (serializeLines v)
      = joinLines (serializeLines v) ++ [] by simp]
    rw [splitCRLF_joinLines _ [] (serializeLines_noCRLF v hrep)]
    rfl
  have hcost : cost v ≤ 4 * (serializeLines v ++ [[]]).length + 16 := by
    have := cost_le v
    simp only [List.length_append, List.length_cons, List.length_nil]
    omega
  have hparse := parse_ser v [] [[]] (4 * (serializeLines v ++ [[]]).length + 16) hrep hcost
  simp only [List.nil_append, List.length_nil, Nat.zero_add] at hparse
  unfold deserialize
  rw [if_neg hne, hsplit, hparse]

/-- Representable values are decidably checkable in practice; this spells
out that a boolean-free value round-trips to itself. -/
def boolFree : RespValue → Bool
  | .bool _ => false
  | .arr xs => boolFreeList xs
  | _ => true
where
  boolFreeList : List RespValue → Bool
  | [] => true
  | v :: vs => boolFree v && boolFreeList vs

mutual
theorem stripBool_boolFree : ∀ v, boolFree v = true → stripBool v = v
  | .null, _ => rfl
  | .str _, _ => rfl
  | .int _, _ => rfl
  | .bool _, h => by simp [boolFree] at h
  | .arr xs, h => by
    show RespValue.arr (stripBoolList xs) = .arr xs
    rw [stripBoolList_boolFree xs h]

theorem stripBoolList_boolFree : ∀ xs, boolFree.boolFreeList xs = true → stripBoolList xs = xs
  | [], _ => rfl
  | v :: vs, h => by
    have h' : boolFree v = true ∧ boolFree.boolFreeList vs = true := by
      simpa [boolFree.boolFreeList, Bool.and_eq_true] using h
    show stripBool v :: stripBoolList vs = v :: vs
    rw [stripBool_boolFree v h'.1, stripBoolList_boolFree vs h'.2]
end

/-- **C2.** For every representable wire value `v` (integers only among
numbers; strings without the two-character line terminator, per the
documented caller contract), `deserialize (serialize v)` succeeds and
returns `v` itself, except that booleans come back as the integers 1 (for
`true`) and 0 (for `false`), including when nested inside arrays: the result
is exactly `stripBool v`, the recursive boolean-to-integer image of `v`,
and `stripBool` is the identity on boolean-free values. -/
theorem serializer_round_trip (v : RespValue) (hrep : Representable v) :
    deserialize (serialize v) = .ok (stripBool v)
      ∧ (boolFree v = true → deserialize (serialize v) = .ok v)
      ∧ stripBool (.bool true) = .int 1 ∧ stripBool (.bool false) = .int 0 := by
  refine ⟨deserialize_serialize v hrep, ?_, rfl, rfl⟩
  intro hbf
  rw [deserialize_serialize v hrep, stripBool_boolFree v hbf]

/-- Witness for C2 at a concrete nested value containing a string, an
integer, both booleans, null and a nested array. -/
theorem serializer_round_trip_witness :
    Representable (.arr [.str ['h', 'i'], .int (-42), .bool true,
        .arr [.bool false, .null]])
      ∧ deserialize (serialize (.arr [.str ['h', 'i'], .int (-42), .bool true,
          .arr [.bool false, .null]]))
        = .ok (.arr [.str ['h', 'i'], .int (-42), .int 1, .arr [.int 0, .null]]) := by
  constructor
  · refine .arr ?_
    intro v hv
    simp at hv
    rcases hv with rfl | rfl | rfl | rfl
    · exact .str (by decide)
    · exact .int
    · exact .bool
    · refine .arr ?_
      intro v hv
      simp at hv
      rcases hv with rfl | rfl
      · exact .bool
      · exact .null
  · have h := (serializer_round_trip (.arr [.str ['h', 'i'], .int (-42), .bool true,
        .arr [.bool false, .null]]) (by
      refine .arr ?_
      intro v hv
      simp at hv
      rcases hv with rfl | rfl | rfl | rfl
      · exact .str (by decide)
      · exact .int
      · exact .bool
      · refine .arr ?_
        intro v hv
        simp at hv
        rcases hv with rfl | rfl
        · exact .bool
        · exact .null)).1
    rw [h]
    rfl

/-! ## C5: deserializer failure cases -/

theorem splitCRLF_single : ∀ (s : Str), hasCRLF s = false → splitCRLF s = [s] := by
  intro s
  match s with
  | [] => intro _; rfl
  | [c] => intro _; rfl
  | a :: b :: t =>
    intro h
    have hab : ¬(a = '\r' ∧ b = '\n') := by
      unfold hasCRLF at h
      rcases Bool.or_eq_false_iff.mp h with ⟨h1, _⟩
      simpa using h1
    have ht : hasCRLF (b :: t) = false := by
      unfold hasCRLF at h
      rcases Bool.or_eq_false_iff.mp h with ⟨_, h2⟩
      exact h2
    show (if a = '\r' ∧ b = '\n' then [] :: splitCRLF t
      else consHead a (splitCRLF (b :: t))) = [a :: b :: t]
    rw [if_neg hab, splitCRLF_single (b :: t) ht]
    rfl

/-- `deserialize` on nonempty input is `parseValue` over the split lines. -/
theorem deserialize_eq (data : Str) (h : ¬ data.isEmpty) :
    deserialize data
      = match parseValue (splitCRLF data) (4 * (splitCRLF data).length + 16) 0 with
        | .ok r => .ok r.1
        | .error e => .error e := by
  unfold deserialize
  rw [if_neg h]

/-- **C5 counterexample.** The input `"$5\r\n"` declares a five-byte bulk
string with no following data line, yet `deserialize` returns the value
`""` (the trailing empty split segment) instead of failing: the claim that
every truncated-declaration input fails with a ParseError is false. -/
theorem deserialize_truncated_bulk_returns_value :
    deserialize ['$', '5', '\r', '\n'] = .ok (.str [])
      ∧ ∀ e, deserialize ['$', '5', '\r', '\n'] ≠ .error e := by
  constructor
  · rfl
  · intro e h
    rw [show deserialize ['$', '5', '\r', '\n'] = .ok (.str []) from rfl] at h
    exact Except.noConfusion h

/-- A `*` line whose count field is non-numeric makes `deserialize` fail
with the distinguished error carrying line index 0 (shared by the C5
analysis and the replay analysis: this is the corruption shape that the
restore loop's catch-and-skip path actually handles). -/
theorem deserialize_invalid_array_count (content rest : Str)
    (hnone : jsParseInt content = none) (hnc : hasCRLF content = false) :
    deserialize ('*' :: content ++ '\r' :: '\n' :: rest)
      = .error (.resp ("Invalid array length: " ++ String.mk content) (some 0)) := by
  have hline : hasCRLF ('*' :: content) = false := hasCRLF_cons (by decide) hnc
  have hsplit : splitCRLF ('*' :: content ++ '\r' :: '\n' :: rest)
      = ('*' :: content) :: splitCRLF rest := by
    show splitCRLF (('*' :: content) ++ '\r' :: '\n' :: rest) = _
    exact splitCRLF_append _ rest hline
  rw [deserialize_eq _ (by simp), hsplit]
  have hlen : ¬((('*' :: content) :: splitCRLF rest).length ≤ 0) := by simp
  match hf : 4 * (('*' :: content) :: splitCRLF rest).length + 16, (by omega :
      1 ≤ 4 * (('*' :: content) :: splitCRLF rest).length + 16) with
  | f + 1, _ =>
    have hp : parseValue (('*' :: content) :: splitCRLF rest) (f + 1) 0
        = .error (.resp ("Invalid array length: " ++ String.mk content) (some 0)) := by
      simp only [parseValue, if_neg hlen]
      rw [show ((('*' :: content) :: splitCRLF rest).getD 0 []) = '*' :: content from rfl]
      show (match jsParseInt content with
        | none => Except.error (DErr.resp ("Invalid array length: "
            ++ String.mk content) (some 0))
        | some arrayLength =>
          if arrayLength = 0 then Except.ok (RespValue.arr [], 1)
          else parseElems (('*' :: content) :: splitCRLF rest) f arrayLength.toNat 0 [] 1)
        = _
      rw [hnone]
    rw [hp]

/-- **C5 (amended).** `deserialize` fails with the distinguished
`RespSerializeError` on: empty input (without an offset); a bulk string
whose declared positive length has no following split segment (input not
terminated by CRLF after the length line), with the offending line index;
an array whose declared positive count exceeds the elements present, with
the offending line index; and any `$`/`*` line whose length/count field is
non-numeric, with the offending line index.  (A bulk-length line that *is*
followed by the line terminator instead returns the next — possibly empty —
segment as the string value; see the counterexample.) -/
theorem deserializer_error_cases :
    (deserialize [] = .error (.resp "Empty input data" none))
    ∧ (∀ n : Nat, 1 ≤ n → deserialize ('$' :: natToChars n)
        = .error (.resp "Missing bulk string data" (some 0)))
    ∧ (∀ k : Nat, 1 ≤ k → deserialize ('*' :: natToChars k ++ crlf)
        = .error (.resp "Error parsing array element 0: Empty line encountered" (some 1)))
    ∧ (∀ content rest : Str, jsParseInt content = none → hasCRLF content = false →
        deserialize ('$' :: content ++ '\r' :: '\n' :: rest)
        = .error (.resp ("Invalid bulk string length: " ++ String.mk content) (some 0)))
    ∧ (∀ content rest : Str, jsParseInt content = none → hasCRLF content = false →
        deserialize ('*' :: content ++ '\r' :: '\n' :: rest)
        = .error (.resp ("Invalid array length: " ++ String.mk content) (some 0))) := by
  refine ⟨rfl, ?_, ?_, ?_, ?_⟩
  · intro n hn
    have hnc : hasCRLF ('$' :: natToChars n) = false :=
      hasCRLF_cons (by decide) (natToChars_noCRLF n)
    rw [deserialize_eq _ (by simp), splitCRLF_single _ hnc]
    have hp : parseValue ['$' :: natToChars n] (4 * 1 + 16) 0
        = .error (.resp "Missing bulk string data" (some 0)) := by
      show (match jsParseInt (natToChars n) with
        | none => Except.error (DErr.resp ("Invalid bulk string length: "
            ++ String.mk (natToChars n)) (some 0))
        | some length =>
          if length = -1 then Except.ok (RespValue.null, 1)
          else if length = 0 then Except.ok (RespValue.str [], 2)
          else Except.error (DErr.resp "Missing bulk string data" (some 0))) = _
      rw [jsParseInt_natToChars n]
      show (if ((n : Nat) : Int) = -1 then Except.ok (RespValue.null, 1)
        else if ((n : Nat) : Int) = 0 then Except.ok (RespValue.str [], 2)
        else Except.error (DErr.resp "Missing bulk string data" (some 0))) = _
      rw [if_neg (by omega), if_neg (by simp; omega)]
    rw [show (4 : Nat) * [('$' :: natToChars n)].length + 16 = 4 * 1 + 16 from rfl, hp]
  · intro k hk
    have hnc : hasCRLF ('*' :: natToChars k) = false :=
      hasCRLF_cons (by decide) (natToChars_noCRLF k)
    have hsplit : splitCRLF ('*' :: natToChars k ++ crlf) = ['*' :: natToChars k, []] := by
      show splitCRLF (('*' :: natToChars k) ++ '\r' :: '\n' :: []) = _
      rw [splitCRLF_append _ [] hnc]
      rfl
    rw [deserialize_eq _ (by simp), hsplit]
    have hp : parseValue ['*' :: natToChars k, []] (4 * 2 + 16) 0
        = .error (.resp "Error parsing array element 0: Empty line encountered" (some 1)) := by
      show (match jsParseInt (natToChars k) with
        | none => Except.error (DErr.resp ("Invalid array length: "
            ++ String.mk (natToChars k)) (some 0))
        | some arrayLength =>
          if arrayLength = 0 then Except.ok (RespValue.arr [], 1)
          else parseElems ['*' :: natToChars k, []] 23 arrayLength.toNat 0 [] 1) = _
      rw [jsParseInt_natToChars k]
      show (if ((k : Nat) : Int) = 0 then Except.ok (RespValue.arr [], 1)
        else parseElems ['*' :: natToChars k, []] 23 (((k : Nat) : Int)).toNat 0 [] 1) = _
      rw [if_neg (by simp; omega), show (((k : Nat) : Int)).toNat = k by simp]
      match k, hk with
      | k + 1, _ => rfl
    rw [show (4 : Nat) * (['*' :: natToChars k, []] : List Str).length + 16
      = 4 * 2 + 16 from rfl, hp]
  · intro content rest hnone hnc
    have hline : hasCRLF ('$' :: content) = false := hasCRLF_cons (by decide) hnc
    have hsplit : splitCRLF ('$' :: content ++ '\r' :: '\n' :: rest)
        = ('$' :: content) :: splitCRLF rest := by
      show splitCRLF (('$' :: content) ++ '\r' :: '\n' :: rest) = _
      exact splitCRLF_append _ rest hline
    rw [deserialize_eq _ (by simp), hsplit]
    have hlen : ¬((('$' :: content) :: splitCRLF rest).length ≤ 0) := by simp
    match hf : 4 * (('$' :: content) :: splitCRLF rest).length + 16, (by omega :
        1 ≤ 4 * (('$' :: content) :: splitCRLF rest).length + 16) with
    | f + 1, _ =>
      have hp : parseValue (('$' :: content) :: splitCRLF rest) (f + 1) 0
          = .error (.resp ("Invalid bulk string length: " ++ String.mk content) (some 0)) := by
        simp only [parseValue, if_neg hlen]
        rw [show ((('$' :: content) :: splitCRLF rest).getD 0 []) = '$' :: content from rfl]
        show (match jsParseInt content with
          | none => Except.error (DErr.resp ("Invalid bulk string length: "
              ++ String.mk content) (some 0))
          | some length =>
            if length = -1 then Except.ok (RespValue.null, 1)
            else if length = 0 then Except.ok (RespValue.str [], 2)
            else if (('$' :: content) :: splitCRLF rest).length ≤ 1 then
              Except.error (DErr.resp "Missing bulk string data" (some 0))
            else Except.ok (RespValue.str ((('$' :: content) :: splitCRLF rest).getD 1 []), 2))
          = _
        rw [hnone]
      rw [hp]
  · exact deserialize_invalid_array_count

/-- Witness for the amended C5 at concrete inputs: a truncated bulk string
`"$5"`, a truncated array `"*2\r\n"`, and the non-numeric fields `"$x\r\n"`
and `"*x\r\n"`. -/
theorem deserializer_error_cases_witness :
    (1 ≤ 5 ∧ jsParseInt ['x'] = none ∧ hasCRLF ['x'] = false)
    ∧ deserialize ('$' :: natToChars 5)
        = .error (.resp "Missing bulk string data" (some 0))
    ∧ deserialize ('*' :: natToChars 2 ++ crlf)
        = .error (.resp "Error parsing array element 0: Empty line encountered" (some 1))
    ∧ deserialize ('$' :: ['x'] ++ '\r' :: '\n' :: [])
        = .error (.resp ("Invalid bulk string length: " ++ String.mk ['x']) (some 0))
    ∧ deserialize ('*' :: ['x'] ++ '\r' :: '\n' :: [])
        = .error (.resp ("Invalid array length: " ++ String.mk ['x']) (some 0)) :=
  ⟨⟨by omega, by decide, by decide⟩,
    deserializer_error_cases.2.1 5 (by omega),
    deserializer_error_cases.2.2.1 2 (by omega),
    deserializer_error_cases.2.2.2.1 ['x'] [] (by decide) (by decide),
    deserializer_error_cases.2.2.2.2 ['x'] [] (by decide) (by decide)⟩

/-! ## Key-value store (src/store/database.ts, class `Database`)

`CacheEntry { value, createdAt, expiry? }`; the store is a JavaScript `Map`
modelled as an association list in insertion order (`Map.set` overwrites in
place, `Map.delete` removes, iteration follows insertion order).  The
dispatcher only ever stores strings, so `value : Str`.  `Date.now()` is an
explicit `now : Int` parameter on each operation that reads the clock. -/

structure CacheEntry : Type where
  value : Str
  createdAt : Int
  expiry : Option Int
deriving DecidableEq

abbrev St := List (Str × CacheEntry)

/-- `Map.prototype.get`. -/
def mapGet (st : St) (k : Str) : Option CacheEntry :=
  match st with
  | [] => none
  | (k', e) :: rest => if k' = k then some e else mapGet rest k

/-- `Map.prototype.set`: overwrite in place, else append. -/
def mapSet (st : St) (k : Str) (e : CacheEntry) : St :=
  match st with
  | [] => [(k, e)]
  | (k', e') :: rest => if k' = k then (k, e) :: rest else (k', e') :: mapSet rest k e

/-- `Map.prototype.delete`: the new map and whether a key was removed. -/
def mapDelete (st : St) (k : Str) : St × Bool :=
  match st with
  | [] => ([], false)
  | (k', e') :: rest =>
    if k' = k then (rest, true)
    else
      let r := mapDelete rest k
      ((k', e') :: r.1, r.2)

/-- `isExpired`: `Boolean(entry.expiry && Date.now() > entry.expiry)` — an
`expiry` of 0 is falsy and therefore counts as "no expiry". -/
def isExpired (now : Int) (e : CacheEntry) : Bool :=
  match e.expiry with
  | none => false
  | some exp => if exp = 0 then false else decide (now > exp)

/-- `createEntry(value, ttl?)`: `expiry = ttl ? Date.now() + ttl*1000 :
undefined` — a provided `ttl` of 0 is falsy, so it yields *no* expiry. -/
def createEntry (value : Str) (ttl : Option Int) (now : Int) : CacheEntry :=
  { value := value
    createdAt := now
    expiry := match ttl with
      | some t => if t = 0 then none else some (now + t * 1000)
      | none => none }

/-- `Database.set`: unconditional insert/overwrite; always returns true. -/
def dbSet (st : St) (k : Str) (v : Str) (ttl : Option Int) (now : Int) : St :=
  mapSet st k (createEntry v ttl now)

/-- `Database.get`: lazy expiration, deleting an expired entry. -/
def dbGet (st : St) (k : Str) (now : Int) : St × Option Str :=
  match mapGet st k with
  | none => (st, none)
  | some e =>
    if isExpired now e then ((mapDelete st k).1, none)
    else (st, some e.value)

/-- `Database.delete`: removes regardless of expiry; reports whether
anything was removed. -/
def dbDelete (st : St) (k : Str) : St × Bool := mapDelete st k

/-- `Database.exists`: same lazy expiration as `get`, boolean result. -/
def dbExists (st : St) (k : Str) (now : Int) : St × Bool :=
  match mapGet st k with
  | none => (st, false)
  | some e =>
    if isExpired now e then ((mapDelete st k).1, false)
    else (st, true)

/-- `Database.clear`. -/
def dbClear : St := []

/-- `Database.expire`: only if present and not expired; the expired entry is
*not* removed here. -/
def dbExpire (st : St) (k : Str) (seconds : Int) (now : Int) : St × Bool :=
  match mapGet st k with
  | none => (st, false)
  | some e =>
    if isExpired now e then (st, false)
    else (mapSet st k { e with expiry := some (now + seconds * 1000) }, true)

/-- `Math.ceil(a / 1000)` for an integer `a` (real division then ceiling). -/
def ceilDiv1000 (a : Int) : Int := Int.ediv (a + 999) 1000

/-- `Database.ttl`: `-1` when the entry is absent, expired, or has a falsy
(`undefined` or 0) expiry; otherwise the remaining seconds, floored at 0. -/
def dbTtl (st : St) (k : Str) (now : Int) : Int :=
  match mapGet st k with
  | none => -1
  | some e =>
    if isExpired now e then -1
    else match e.expiry with
      | none => -1
      | some exp => if exp = 0 then -1 else max 0 (ceilDiv1000 (exp - now))

/-- `Database.cleanupExpired`: sweep, returning the removal count. -/
def dbCleanupExpired (st : St) (now : Int) : St × Nat :=
  (st.filter (fun kv => !isExpired now kv.2),
    (st.filter (fun kv => isExpired now kv.2)).length)

/-! ### `Database.keys` and the pattern regex

`keys` sweeps expired entries, then filters the surviving keys with
`new RegExp('^' + pattern.replace(/\*/g, '.*').replace(/\?/g, '.') + '$')`
unless the pattern is falsy (empty) or exactly `"*"`.  We model the
fragment of JavaScript regular expressions that a translated pattern can
produce — sequences of literal characters and `.`, each optionally followed
by `*`, anchored at both ends (which is what wrapping in `^…$` does).
Patterns whose translation contains other metacharacters fall outside the
fragment (`parseRegex` returns `none`, where the host would raise a
`SyntaxError`); no theorem below relies on that branch. -/

/-- `pattern.replace(/\*/g, '.*').replace(/\?/g, '.')`. -/
def translatePattern : Str → Str
  | [] => []
  | c :: rest =>
    if c = '*' then '.' :: '*' :: translatePattern rest
    else if c = '?' then '.' :: translatePattern rest
    else c :: translatePattern rest

/-- A regex atom of the modelled fragment. -/
inductive RAtom : Type where
  | dot : RAtom
  | lit : Char → RAtom
deriving DecidableEq

/-- Regex metacharacters that the modelled fragment does not cover as
literals. -/
def isRegexMeta (c : Char) : Bool :=
  c = '(' || c = ')' || c = '[' || c = ']' || c = '{' || c = '}' ||
  c = '+' || c = '|' || c = '^' || c = '$' || c = '\\' || c = '*' || c = '?'

/-- Parse a regex body of the modelled fragment into atoms with optional
postfix `*`. -/
def parseRegex : Str → Option (List (RAtom × Bool))
  | [] => some []
  | c :: rest =>
    match (if c = '.' then some RAtom.dot
      else if isRegexMeta c then none
      else some (RAtom.lit c)) with
    | none => none
    | some a =>
      match rest with
      | [] => some [(a, false)]
      | d :: rest' =>
        if d = '*' then (parseRegex rest').map (fun l => (a, true) :: l)
        else (parseRegex (d :: rest')).map (fun l => (a, false) :: l)

/-- Does an atom match one character? -/
def matchAtom : RAtom → Char → Bool
  | .dot, _ => true
  | .lit c, d => c = d

/-- Anchored (full-string) regex matching over atoms, with fuel making the
backtracking recursion structural; `rmatch` supplies
`regex.length + s.length + 1`, which bounds every call chain since each
step drops an atom or a character. -/
def rmatchF : Nat → List (RAtom × Bool) → Str → Bool
  | 0, _, _ => false
  | _ + 1, [], [] => true
  | _ + 1, [], _ :: _ => false
  | _ + 1, (_, false) :: _, [] => false
  | f + 1, (a, false) :: rest, c :: s => matchAtom a c && rmatchF f rest s
  | f + 1, (a, true) :: rest, s =>
    rmatchF f rest s ||
      (match s with
       | [] => false
       | c :: s' => matchAtom a c && rmatchF f ((a, true) :: rest) s')

/-- Anchored regex matching (what `new RegExp('^'+body+'$').test(s)` does
for a body of the modelled fragment). -/
def rmatch (regex : List (RAtom × Bool)) (s : Str) : Bool :=
  rmatchF (regex.length + s.length + 1) regex s

/-- `regex.test(key)` for the constructed anchored pattern; `none`
(invalid regex, host raises) is modelled as an untaken branch. -/
def regexFullMatch (body : Str) (s : Str) : Bool :=
  match parseRegex body with
  | none => false
  | some atoms => rmatch atoms s

/-- `Database.keys(pattern?)`: sweep expired entries (side effect), then
filter by the translated pattern unless it is falsy or exactly `"*"`. -/
def dbKeys (st : St) (pattern : Str) (now : Int) : St × List Str :=
  let st' := st.filter (fun kv => !isExpired now kv.2)
  let validKeys := st'.map Prod.fst
  if pattern.isEmpty || pattern = ['*'] then (st', validKeys)
  else (st', validKeys.filter (fun k => regexFullMatch (translatePattern pattern) k))

/-! ## C3: TTL sentinels -/

/-- **C3.** `Database.ttl` answers `-1` both for an absent key and for a
present key with no expiry: the code has a single sentinel where the claim
(and the repository's own test, which expects `-2` for an absent key)
requires two distinct ones.  The theorem evaluates the code at the failing
input: an empty store and a store holding `k` with no expiry. -/
theorem ttl_sentinels_collide :
    dbTtl [] ['k'] 0 = -1
      ∧ dbTtl [(['k'], ⟨['v'], 0, none⟩)] ['k'] 0 = -1 := by
  exact ⟨rfl, rfl⟩

/-! ## C7: set semantics and the ttl = 0 case -/

theorem mapGet_mapSet : ∀ (st : St) (k : Str) (e : CacheEntry),
    mapGet (mapSet st k e) k = some e := by
  intro st k e
  induction st with
  | nil => simp [mapSet, mapGet]
  | cons kv rest ih =>
    obtain ⟨k', e'⟩ := kv
    by_cases h : k' = k
    · simp [mapSet, mapGet, h]
    · simp [mapSet, mapGet, h, ih]

/-- **C7 counterexample.** `set(k, v, 0)` stores an entry with *no* expiry
(`ttl ? … : undefined` treats 0 as falsy), not the claimed
`expiry = now + 0·1000`. -/
theorem set_ttl_zero_counterexample :
    (mapGet (dbSet [] ['k'] ['v'] (some 0) 5) ['k']).map CacheEntry.expiry = some none
      ∧ some (5 + 0 * 1000) ≠ (none : Option Int) := by
  exact ⟨rfl, by decide⟩

/-- **C7 (amended).** `set(key, value, ttlSeconds)` unconditionally inserts
or overwrites and always succeeds; for a provided *nonzero* `ttlSeconds`
the entry's expiry is `now + ttlSeconds*1000`, while a missing `ttlSeconds`
— or the falsy value 0 — yields an entry with no expiry. -/
theorem set_semantics (st : St) (k v : Str) (now : Int) :
    (∀ t : Int, t ≠ 0 → mapGet (dbSet st k v (some t) now) k
        = some ⟨v, now, some (now + t * 1000)⟩)
      ∧ mapGet (dbSet st k v (some 0) now) k = some ⟨v, now, none⟩
      ∧ mapGet (dbSet st k v none now) k = some ⟨v, now, none⟩ := by
  refine ⟨?_, ?_, ?_⟩
  · intro t ht
    unfold dbSet createEntry
    rw [mapGet_mapSet]
    simp [ht]
  · unfold dbSet createEntry
    rw [mapGet_mapSet]
    rfl
  · unfold dbSet createEntry
    rw [mapGet_mapSet]

/-- Witness for the amended C7 at a concrete store, key, value and time,
overwriting an existing entry. -/
theorem set_semantics_witness :
    ((3 : Int) ≠ 0)
      ∧ mapGet (dbSet [(['a'], ⟨['o'], 0, none⟩)] ['a'] ['b'] (some 3) 7) ['a']
          = some ⟨['b'], 7, some (7 + 3 * 1000)⟩
      ∧ mapGet (dbSet [(['a'], ⟨['o'], 0, none⟩)] ['a'] ['b'] (some 0) 7) ['a']
          = some ⟨['b'], 7, none⟩
      ∧ mapGet (dbSet [(['a'], ⟨['o'], 0, none⟩)] ['a'] ['b'] none 7) ['a']
          = some ⟨['b'], 7, none⟩ :=
  ⟨by decide,
    (set_semantics [(['a'], ⟨['o'], 0, none⟩)] ['a'] ['b'] 7).1 3 (by decide),
    (set_semantics [(['a'], ⟨['o'], 0, none⟩)] ['a'] ['b'] 7).2.1,
    (set_semantics [(['a'], ⟨['o'], 0, none⟩)] ['a'] ['b'] 7).2.2⟩

/-! ## C6: keys and glob semantics -/

/-- A pattern character that the translated regex treats as a literal. -/
def safeLit (c : Char) : Bool := !(isRegexMeta c) && !(c = '.')

/-- Patterns made of `*`, `?` and literal-safe characters. -/
def safePattern (p : Str) : Bool := p.all (fun c => c = '*' || c = '?' || safeLit c)

/-- Modelled from the spec: glob pattern matching — `*` matches any run of
characters (unbounded repetition of any character), `?` matches exactly one
character, any other character matches itself, as an anchored full-string
match.  Expressed as atoms for the anchored matcher. -/
def globAtoms : Str → List (RAtom × Bool)
  | [] => []
  | c :: rest =>
    (if c = '*' then (RAtom.dot, true)
     else if c = '?' then (RAtom.dot, false)
     else (RAtom.lit c, false)) :: globAtoms rest

/-- Modelled from the spec: the glob match predicate of §4.3. -/
def specGlobMatch (p s : Str) : Bool := rmatch (globAtoms p) s

theorem translatePattern_nil_iff : ∀ p, translatePattern p = [] ↔ p = [] := by
  intro p
  cases p with
  | nil => simp [translatePattern]
  | cons c rest =>
    simp only [translatePattern]
    constructor
    · intro h
      by_cases h1 : c = '*'
      · simp [h1] at h
      · by_cases h2 : c = '?'
        · simp [h1, h2] at h
        · simp [h1, h2] at h
    · intro h
      exact absurd h (by simp)

theorem translatePattern_head_ne_star :
    ∀ p, safePattern p = true → ∀ d rest', translatePattern p = d :: rest' → d ≠ '*' := by
  intro p hp d rest' heq
  cases p with
  | nil => simp [translatePattern] at heq
  | cons c rest =>
    have hc : (c = '*' ∨ c = '?' ∨ safeLit c = true) := by
      have := List.all_eq_true.mp hp c (by simp)
      simp only [Bool.or_eq_true, decide_eq_true_eq] at this
      tauto
    simp only [translatePattern] at heq
    by_cases h1 : c = '*'
    · rw [if_pos h1] at heq
      cases heq
      decide
    · by_cases h2 : c = '?'
      · rw [if_neg h1, if_pos h2] at heq
        cases heq
        decide
      · rw [if_neg h1, if_neg h2] at heq
        have hcd : c = d := (List.cons.injEq _ _ _ _).mp heq |>.1
        subst hcd
        rcases hc with h | h | h
        · exact absurd h h1
        · exact absurd h h2
        · intro hstar
          rw [hstar] at h
          revert h
          decide

theorem safePattern_tail {c : Char} {rest : Str}
    (h : safePattern (c :: rest) = true) : safePattern rest = true := by
  simp only [safePattern, List.all_cons, Bool.and_eq_true] at h ⊢
  exact h.2

theorem parseRegex_cons_lit (c : Char) (rest : Str) (hdot : ¬(c = '.'))
    (hmeta : isRegexMeta c = false) :
    parseRegex (c :: rest)
      = match rest with
        | [] => some [(RAtom.lit c, false)]
        | d :: rest' =>
          if d = '*' then (parseRegex rest').map (fun l => (RAtom.lit c, true) :: l)
          else (parseRegex (d :: rest')).map (fun l => (RAtom.lit c, false) :: l) := by
  rw [parseRegex.eq_2]
  rw [if_neg hdot, if_neg (by simp [hmeta])]
  rfl

theorem parseRegex_translatePattern :
    ∀ p, safePattern p = true → parseRegex (translatePattern p) = some (globAtoms p) := by
  intro p
  induction p with
  | nil => intro _; rfl
  | cons c rest ih =>
    intro hp
    have hrest : safePattern rest = true := safePattern_tail hp
    have hih := ih hrest
    have hc : (c = '*' ∨ c = '?' ∨ safeLit c = true) := by
      have := List.all_eq_true.mp hp c (by simp)
      simp only [Bool.or_eq_true, decide_eq_true_eq] at this
      tauto
    have hga : globAtoms (c :: rest)
        = (if c = '*' then (RAtom.dot, true)
           else if c = '?' then (RAtom.dot, false)
           else (RAtom.lit c, false)) :: globAtoms rest := rfl
    by_cases h1 : c = '*'
    · subst h1
      show parseRegex ('.' :: '*' :: translatePattern rest) = _
      rw [show parseRegex ('.' :: '*' :: translatePattern rest)
        = (parseRegex (translatePattern rest)).map (fun l => (RAtom.dot, true) :: l)
        from rfl]
      rw [hih, hga]
      rfl
    · by_cases h2 : c = '?'
      · subst h2
        show parseRegex ('.' :: translatePattern rest) = _
        cases htr : translatePattern rest with
        | nil =>
          have : rest = [] := (translatePattern_nil_iff rest).mp htr
          subst this
          rfl
        | cons d rest' =>
          have hd : d ≠ '*' := translatePattern_head_ne_star rest hrest d rest' htr
          rw [show parseRegex ('.' :: d :: rest')
            = (if d = '*' then (parseRegex rest').map (fun l => (RAtom.dot, true) :: l)
               else (parseRegex (d :: rest')).map (fun l => (RAtom.dot, false) :: l))
            from rfl]
          rw [if_neg hd, ← htr, hih, hga]
          rfl
      · have hsafe : safeLit c = true := by
          rcases hc with h | h | h
          · exact absurd h h1
          · exact absurd h h2
          · exact h
        have hnotmeta : isRegexMeta c = false := by
          simp only [safeLit, Bool.and_eq_true, Bool.not_eq_true'] at hsafe
          exact hsafe.1
        have hnotdot : ¬(c = '.') := by
          simp only [safeLit, Bool.and_eq_true, Bool.not_eq_true'] at hsafe
          simpa using hsafe.2
        rw [show translatePattern (c :: rest) = c :: translatePattern rest by
          show (if c = '*' then '.' :: '*' :: translatePattern rest
            else if c = '?' then '.' :: translatePattern rest
            else c :: translatePattern rest) = _
          rw [if_neg h1, if_neg h2]]
        rw [parseRegex_cons_lit c _ hnotdot hnotmeta]
        cases htr : translatePattern rest with
        | nil =>
          have : rest = [] := (translatePattern_nil_iff rest).mp htr
          subst this
          rw [hga]
          simp [if_neg h1, if_neg h2, globAtoms]
        | cons d rest' =>
          have hd : d ≠ '*' := translatePattern_head_ne_star rest hrest d rest' htr
          show (if d = '*' then (parseRegex rest').map (fun l => (RAtom.lit c, true) :: l)
            else (parseRegex (d :: rest')).map (fun l => (RAtom.lit c, false) :: l)) = _
          rw [if_neg hd, ← htr, hih, hga]
          simp [if_neg h1, if_neg h2]

theorem rmatchF_dotstar : ∀ (k : Str) (f : Nat), k.length + 2 ≤ f →
    rmatchF f [(RAtom.dot, true)] k = true := by
  intro k
  induction k with
  | nil =>
    intro f hf
    match f, hf with
    | f' + 1, _ =>
      show (rmatchF f' [] [] || _) = true
      match f', (by omega : 1 ≤ f') with
      | f'' + 1, _ => rfl
  | cons c s ih =>
    intro f hf
    have hlen : (c :: s).length = s.length + 1 := by simp
    match f, hf with
    | f' + 1, hf =>
      show (rmatchF f' [] (c :: s) ||
        (matchAtom RAtom.dot c && rmatchF f' [(RAtom.dot, true)] s)) = true
      rw [ih f' (by omega)]
      simp [matchAtom]

theorem specGlobMatch_star (k : Str) : specGlobMatch ['*'] k = true := by
  show rmatchF ((([(RAtom.dot, true)] : List (RAtom × Bool))).length + k.length + 1)
    [(RAtom.dot, true)] k = true
  exact rmatchF_dotstar k _ (by simp; omega)

/-- **C6 counterexample.** The pattern `"a.b"` contains the regex
metacharacter `.`, which the code interprets as "any character": on a store
holding the key `"axb"`, `keys("a.b")` returns `["axb"]`, whereas glob
semantics (where `.` is a literal) matches nothing — so `keys` does not
filter by glob semantics on metacharacter patterns. -/
theorem keys_not_glob_counterexample :
    (dbKeys [(['a','x','b'], ⟨['v'], 0, none⟩)] ['a','.','b'] 0).2 = [['a','x','b']]
      ∧ specGlobMatch ['a','.','b'] ['a','x','b'] = false
      ∧ (dbKeys [(['a','x','b'], ⟨['v'], 0, none⟩)] ['a','.','b'] 0).2
          ≠ [['a','x','b']].filter (specGlobMatch ['a','.','b']) := by
  refine ⟨rfl, rfl, ?_⟩
  intro h
  rw [show [['a','x','b']].filter (specGlobMatch ['a','.','b']) = [] from rfl] at h
  rw [show (dbKeys [(['a','x','b'], ⟨['v'], 0, none⟩)] ['a','.','b'] 0).2
    = [['a','x','b']] from rfl] at h
  exact List.noConfusion h

/-- **C6 (amended).** All store operations are total functions of the
model; `keys(pattern)` filters the surviving keys by glob semantics
(`*` = any run, `?` = exactly one character, anchored full-string match)
for every non-empty pattern built from `*`, `?` and non-metacharacter
literal characters.  Patterns containing other regex metacharacters are
interpreted as regular expressions (see the counterexample), and a pattern
that forms an invalid regular expression makes the host `RegExp`
constructor throw, outside this fragment. -/
theorem keys_glob_for_safe_patterns (st : St) (p : Str) (now : Int)
    (hne : p ≠ []) (hsafe : safePattern p = true) :
    (dbKeys st p now).2
      = ((st.filter (fun kv => !isExpired now kv.2)).map Prod.fst).filter
          (fun k => specGlobMatch p k) := by
  by_cases hstar : p = ['*']
  · subst hstar
    unfold dbKeys
    rw [if_pos (by simp)]
    exact (List.filter_eq_self.mpr fun k _ => specGlobMatch_star k).symm
  · unfold dbKeys
    rw [if_neg (by simp [List.isEmpty_iff, hne, hstar])]
    show List.filter (fun k => regexFullMatch (translatePattern p) k) _ = _
    congr 1
    funext k
    unfold regexFullMatch
    rw [parseRegex_translatePattern p hsafe]
    rfl

/-- Witness for the amended C6: pattern `"u?er:*"` on a four-key store with
one expired entry. -/
theorem keys_glob_for_safe_patterns_witness :
    ((['u','?','e','r',':','*'] : Str) ≠ [] ∧ safePattern ['u','?','e','r',':','*'] = true)
      ∧ (dbKeys [(['u','s','e','r',':','1'], ⟨['a'], 0, none⟩),
            (['u','x','e','r',':','2'], ⟨['b'], 0, some 5⟩),
            (['a','d','m','i','n'], ⟨['c'], 0, none⟩),
            (['u','s','e','r',':','2','2'], ⟨['d'], 0, none⟩)] ['u','?','e','r',':','*'] 10).2
        = [['u','s','e','r',':','1'], ['u','s','e','r',':','2','2']] := by
  constructor
  · exact ⟨by decide, by decide⟩
  · rw [keys_glob_for_safe_patterns _ _ 10 (by decide) (by decide)]
    rfl

/-! ## Command parser / dispatcher (src/memserv/index.ts)

`MemServLight.parse` deserializes the request and shapes the decoded array
into a typed command; we split it into `deserialize` plus `parseCommand` on
the decoded value.  `MemServLight.execute` dispatches a command against the
store and produces the RESP reply; we model the execution path with
persistence logging suppressed (the restoration-mode path — logging never
touches the store, and the persister is modelled separately). -/

/-- Precomputed RESP replies (`COMMON_RESP_VALUES`). -/
def respOK : Str := ['+', 'O', 'K', '\r', '\n']
def respPONG : Str := ['+', 'P', 'O', 'N', 'G', '\r', '\n']
def respNULL : Str := ['$', '-', '1', '\r', '\n']
def respZERO : Str := [':', '0', '\r', '\n']
def respONE : Str := [':', '1', '\r', '\n']

/-- `formatError(msg)` = `-ERROR <msg>\r\n`. -/
def formatError (msg : Str) : Str :=
  '-' :: (['E', 'R', 'R', 'O', 'R', ' '] ++ msg ++ crlf)

/-- `String.prototype.toLowerCase` for the ASCII range. -/
def toLowerChar (c : Char) : Char :=
  if 'A' ≤ c ∧ c ≤ 'Z' then Char.ofNat (c.toNat + 32) else c

def jsToLower (s : Str) : Str := s.map toLowerChar

/-- Join strings with single spaces (`args.join(' ')`). -/
def joinSpaces : List Str → Str
  | [] => []
  | [x] => x
  | x :: xs => x ++ ' ' :: joinSpaces xs

/-- The typed commands (`Command` in src/memserv/types.ts with each
command's validated parameters). -/
inductive Cmd : Type where
  | ping : Cmd
  | echo : Str → Cmd
  | set : Str → Str → Option Int → Cmd
  | get : Str → Cmd
  | del : Str → Cmd
  | exists' : Str → Cmd
  | keys : Str → Cmd
  | clear : Cmd
  | expire : Str → Int → Cmd
  | ttl : Str → Cmd
  | info : Option Str → Cmd
deriving DecidableEq

/-- `MemServLight.parse` after deserialization (src/memserv/index.ts,
lines 413–476): shape the decoded value into a command, or `null`. -/
def parseCommand : RespValue → Option Cmd
  | .arr parsedList =>
    match hne : parsedList with
    | [] => none
    | p0 :: _ =>
      let cmd := jsToLower (jsToString p0)
      if cmd = ['p', 'i', 'n', 'g'] then some .ping
      else if cmd = ['c', 'l', 'e', 'a', 'r'] then some .clear
      else if cmd = ['i', 'n', 'f', 'o'] then
        some (.info (if jsTruthy (parsedList.getD 1 .null)
          then some (jsToString (parsedList.getD 1 .null)) else none))
      else if cmd = ['k', 'e', 'y', 's'] then
        some (.keys (if jsTruthy (parsedList.getD 1 .null)
          then jsToString (parsedList.getD 1 .null) else ['*']))
      else if cmd = ['e', 'c', 'h', 'o'] then
        some (.echo (joinSpaces ((parsedList.drop 1).map jsToString)))
      else if parsedList.length < 2 then none
      else
        let arg0 := jsToString (parsedList.getD 1 .null)
        if cmd = ['g', 'e', 't'] then some (.get arg0)
        else if cmd = ['d', 'e', 'l'] then some (.del arg0)
        else if cmd = ['e', 'x', 'i', 's', 't', 's'] then some (.exists' arg0)
        else if cmd = ['t', 't', 'l'] then some (.ttl arg0)
        else if cmd = ['s', 'e', 't'] then
          if parsedList.length < 3 then none
          else
            match (if 4 ≤ parsedList.length
                ∧ jsToString (parsedList.getD (parsedList.length - 2) .null) = ['E', 'X']
              then jsParseInt (jsToString (parsedList.getD (parsedList.length - 1) .null))
              else none) with
            | some t =>
              some (.set arg0
                (joinSpaces (((parsedList.drop 2).take (parsedList.length - 4)).map jsToString))
                (some t))
            | none =>
              some (.set arg0 (joinSpaces ((parsedList.drop 2).map jsToString)) none)
        else if cmd = ['e', 'x', 'p', 'i', 'r', 'e'] then
          if parsedList.length < 3 then none
          else
            match jsParseInt (jsToString (parsedList.getD 2 .null)) with
            | none => none
            | some s => some (.expire arg0 s)
        else none
  | _ => none

/-- `MemServLight.parse`: deserialize, then shape; a decoding exception
propagates to the caller. -/
def parse (request : Str) : Except DErr (Option Cmd) :=
  match deserialize request with
  | .error e => .error e
  | .ok v => .ok (parseCommand v)

/-- Fixed reply standing in for the time-and-process-derived `info()`
response (advisory only; exercised by no claim). -/
def infoReply : Str := serialize (.str ['m', 'e', 'm', 's', 'e', 'r', 'v'])

/-- `MemServLight.execute` (lines 298–365) with persistence logging
suppressed: the reply and the updated store. -/
def executeCmd (now : Int) (st : St) : Cmd → Str × St
  | .ping => (respPONG, st)
  | .echo t => (serialize (.str t), st)
  | .set k v ttl => (respOK, dbSet st k v ttl now)
  | .get k =>
    let r := dbGet st k now
    (match r.2 with
     | some v => if v.isEmpty then respNULL else serialize (.str v)
     | none => respNULL, r.1)
  | .del k =>
    let r := dbDelete st k
    (if r.2 then respONE else respZERO, r.1)
  | .exists' k =>
    let r := dbExists st k now
    (if r.2 then respONE else respZERO, r.1)
  | .keys pat =>
    let r := dbKeys st (if pat.isEmpty then ['*'] else pat) now
    (serialize (.arr (r.2.map .str)), r.1)
  | .clear => (respOK, dbClear)
  | .expire k s =>
    let r := dbExpire st k s now
    (if r.2 then respONE else respZERO, r.1)
  | .ttl k => (serialize (.int (dbTtl st k now)), st)
  | .info _ => (infoReply, st)

/-! ## C9: SET token parsing -/

theorem map_jsToString_map_str : ∀ ws : List Str,
    (ws.map RespValue.str).map jsToString = ws := by
  intro ws
  induction ws with
  | nil => rfl
  | cons w rest ih => simp [jsToString, ih]

theorem getD_map_str : ∀ (ws : List Str) (i : Nat), i < ws.length →
    (ws.map RespValue.str).getD i .null = .str (ws.getD i []) := by
  intro ws
  induction ws with
  | nil => intro i hi; simp at hi
  | cons w rest ih =>
    intro i hi
    cases i with
    | zero => rfl
    | succ j =>
      simp only [List.map_cons, List.getD_cons_succ]
      exact ih j (by simpa using hi)

/-- **C9.** For every decoded top-level sequence
`["SET", key, w1, …, wn]` of string tokens with `n ≥ 1`, the parser
recognizes a trailing TTL exactly when there are at least two tokens after
the key, the second-to-last token is exactly `"EX"`, and the last token
parses as an integer; in that case the value is `w1 … w(n-2)` joined with
single spaces and the TTL is the parsed integer; otherwise all of
`w1 … wn` are joined with single spaces and no TTL is set. -/
theorem parse_set_tokens (key : Str) (ws : List Str) (hne : ws ≠ []) :
    parseCommand (.arr (.str ['S', 'E', 'T'] :: .str key :: ws.map .str))
      = some (match (if 2 ≤ ws.length ∧ ws.getD (ws.length - 2) [] = ['E', 'X']
            then jsParseInt (ws.getD (ws.length - 1) []) else none) with
        | some t => .set key (joinSpaces (ws.take (ws.length - 2))) (some t)
        | none => .set key (joinSpaces ws) none) := by
  have hws : 1 ≤ ws.length := List.length_pos.mpr hne
  have hL : (RespValue.str ['S', 'E', 'T'] :: RespValue.str key
      :: ws.map RespValue.str).length = ws.length + 2 := by simp
  simp only [parseCommand]
  rw [show jsToLower (jsToString (RespValue.str ['S', 'E', 'T'])) = ['s', 'e', 't'] from rfl]
  rw [if_neg (by decide), if_neg (by decide), if_neg (by decide), if_neg (by decide),
    if_neg (by decide)]
  rw [if_neg (show ¬((RespValue.str ['S', 'E', 'T'] :: RespValue.str key
    :: ws.map RespValue.str).length < 2) by rw [hL]; omega)]
  rw [if_neg (by decide), if_neg (by decide), if_neg (by decide), if_neg (by decide),
    if_pos rfl]
  rw [if_neg (show ¬((RespValue.str ['S', 'E', 'T'] :: RespValue.str key
    :: ws.map RespValue.str).length < 3) by rw [hL]; omega)]
  have hscrut : (if 4 ≤ (RespValue.str ['S', 'E', 'T'] :: RespValue.str key
          :: ws.map RespValue.str).length
        ∧ jsToString ((RespValue.str ['S', 'E', 'T'] :: RespValue.str key
          :: ws.map RespValue.str).getD ((RespValue.str ['S', 'E', 'T'] :: RespValue.str key
          :: ws.map RespValue.str).length - 2) .null) = ['E', 'X']
      then jsParseInt (jsToString ((RespValue.str ['S', 'E', 'T'] :: RespValue.str key
        :: ws.map RespValue.str).getD ((RespValue.str ['S', 'E', 'T'] :: RespValue.str key
        :: ws.map RespValue.str).length - 1) .null))
      else none)
      = (if 2 ≤ ws.length ∧ ws.getD (ws.length - 2) [] = ['E', 'X']
        then jsParseInt (ws.getD (ws.length - 1) []) else none) := by
    by_cases h2 : 2 ≤ ws.length
    · have hidx2 : (RespValue.str ['S', 'E', 'T'] :: RespValue.str key
          :: ws.map RespValue.str).getD ((RespValue.str ['S', 'E', 'T'] :: RespValue.str key
          :: ws.map RespValue.str).length - 2) .null = .str (ws.getD (ws.length - 2) []) := by
        rw [hL]
        rw [show ws.length + 2 - 2 = (ws.length - 2) + 1 + 1 by omega]
        simp only [List.getD_cons_succ]
        exact getD_map_str ws (ws.length - 2) (by omega)
      have hidx1 : (RespValue.str ['S', 'E', 'T'] :: RespValue.str key
          :: ws.map RespValue.str).getD ((RespValue.str ['S', 'E', 'T'] :: RespValue.str key
          :: ws.map RespValue.str).length - 1) .null = .str (ws.getD (ws.length - 1) []) := by
        rw [hL]
        rw [show ws.length + 2 - 1 = (ws.length - 1) + 1 + 1 by omega]
        simp only [List.getD_cons_succ]
        exact getD_map_str ws (ws.length - 1) (by omega)
      rw [hidx2, hidx1, hL]
      rw [show jsToString (RespValue.str (ws.getD (ws.length - 2) []))
        = ws.getD (ws.length - 2) [] from rfl]
      rw [show jsToString (RespValue.str (ws.getD (ws.length - 1) []))
        = ws.getD (ws.length - 1) [] from rfl]
      by_cases hex : ws.getD (ws.length - 2) [] = ['E', 'X']
      · rw [if_pos ⟨by omega, hex⟩, if_pos ⟨h2, hex⟩]
      · rw [if_neg (by tauto), if_neg (by tauto)]
    · rw [if_neg (by rw [hL]; omega), if_neg (by tauto)]
  rw [hscrut]
  cases hS : (if 2 ≤ ws.length ∧ ws.getD (ws.length - 2) [] = ['E', 'X']
      then jsParseInt (ws.getD (ws.length - 1) []) else none) with
  | none =>
    show some (Cmd.set (jsToString ((RespValue.str ['S', 'E', 'T'] :: RespValue.str key
      :: ws.map RespValue.str).getD 1 .null))
      (joinSpaces (((RespValue.str ['S', 'E', 'T'] :: RespValue.str key
        :: ws.map RespValue.str).drop 2).map jsToString)) none) = _
    rw [show ((RespValue.str ['S', 'E', 'T'] :: RespValue.str key
      :: ws.map RespValue.str).drop 2) = ws.map RespValue.str from rfl]
    rw [map_jsToString_map_str]
    rfl
  | some t =>
    show some (Cmd.set (jsToString ((RespValue.str ['S', 'E', 'T'] :: RespValue.str key
      :: ws.map RespValue.str).getD 1 .null))
      (joinSpaces ((((RespValue.str ['S', 'E', 'T'] :: RespValue.str key
        :: ws.map RespValue.str).drop 2).take ((RespValue.str ['S', 'E', 'T']
        :: RespValue.str key :: ws.map RespValue.str).length - 4)).map jsToString))
      (some t)) = _
    rw [show ((RespValue.str ['S', 'E', 'T'] :: RespValue.str key
      :: ws.map RespValue.str).drop 2) = ws.map RespValue.str from rfl]
    rw [hL, show ws.length + 2 - 4 = ws.length - 2 by omega]
    rw [← List.map_take, map_jsToString_map_str]
    rfl

/-- Witness for C9: the tokens `["a", "b", "EX", "7"]` (TTL recognized) —
instantiating the theorem at a concrete key and token list. -/
theorem parse_set_tokens_witness :
    (([['a'], ['b'], ['E', 'X'], ['7']] : List Str) ≠ [])
      ∧ parseCommand (.arr (.str ['S', 'E', 'T'] :: .str ['k']
          :: ([['a'], ['b'], ['E', 'X'], ['7']] : List Str).map .str))
        = some (.set ['k'] ['a', ' ', 'b'] (some 7)) := by
  constructor
  · decide
  · rw [parse_set_tokens ['k'] [['a'], ['b'], ['E', 'X'], ['7']] (by decide)]
    rfl

/-! ## C10: GET on falsy stored values -/

/-- **C10.** After `set` stores the empty string under a key, `execute` of
GET for that key returns the null-bulk reply — the same reply GET gives for
an absent key — while `execute` of EXISTS for the same key returns the
integer 1; and in general the dispatcher's GET replies null-bulk for every
key whose stored live value is falsy (the empty string, values being
strings), even though the store reports the key present. -/
theorem get_empty_string_indistinguishable (st : St) (k : Str) (now later : Int) :
    (executeCmd later (dbSet st k [] none now) (.get k)).1 = respNULL
      ∧ (executeCmd later (dbSet st k [] none now) (.exists' k)).1 = respONE
      ∧ (executeCmd later ([] : St) (.get k)).1 = respNULL
      ∧ (∀ v, (dbGet st k later).2 = some v →
          (executeCmd later st (.get k)).1
            = (if v.isEmpty then respNULL else serialize (.str v))) := by
  have hget : mapGet (dbSet st k [] none now) k = some ⟨[], now, none⟩ := by
    unfold dbSet createEntry
    rw [mapGet_mapSet]
  have hdbget : dbGet (dbSet st k [] none now) k later
      = (dbSet st k [] none now, some []) := by
    unfold dbGet
    rw [hget]
    rfl
  have hdbex : dbExists (dbSet st k [] none now) k later
      = (dbSet st k [] none now, true) := by
    unfold dbExists
    rw [hget]
    rfl
  refine ⟨?_, ?_, rfl, ?_⟩
  · show (match (dbGet (dbSet st k [] none now) k later).2 with
      | some v => if v.isEmpty then respNULL else serialize (RespValue.str v)
      | none => respNULL) = respNULL
    rw [hdbget]
    rfl
  · show (if (dbExists (dbSet st k [] none now) k later).2 then respONE else respZERO)
      = respONE
    rw [hdbex]
    rfl
  · intro v hv
    show (match (dbGet st k later).2 with
      | some v => if v.isEmpty then respNULL else serialize (RespValue.str v)
      | none => respNULL) = _
    rw [hv]

/-- Witness for C10 at a concrete store and key. -/
theorem get_empty_string_indistinguishable_witness :
    (executeCmd 9 (dbSet [(['o'], ⟨['w'], 0, none⟩)] ['k'] [] none 3) (.get ['k'])).1 = respNULL
      ∧ (executeCmd 9 (dbSet [(['o'], ⟨['w'], 0, none⟩)] ['k'] [] none 3) (.exists' ['k'])).1
          = respONE
      ∧ (executeCmd 9 ([] : St) (.get ['k'])).1 = respNULL
      ∧ ((dbGet [(['k'], ⟨['x'], 0, none⟩)] ['k'] 9).2 = some ['x'] →
          (executeCmd 9 [(['k'], ⟨['x'], 0, none⟩)] (.get ['k'])).1
            = (if (['x'] : Str).isEmpty then respNULL else serialize (.str ['x']))) :=
  ⟨(get_empty_string_indistinguishable [(['o'], ⟨['w'], 0, none⟩)] ['k'] 3 9).1,
    (get_empty_string_indistinguishable [(['o'], ⟨['w'], 0, none⟩)] ['k'] 3 9).2.1,
    (get_empty_string_indistinguishable [(['o'], ⟨['w'], 0, none⟩)] ['k'] 3 9).2.2.1,
    fun h => (get_empty_string_indistinguishable [(['k'], ⟨['x'], 0, none⟩)] ['k'] 3 9).2.2.2
      ['x'] h⟩

/-! ## Append-only persister (src/store/persistence.ts, class
`AppendOnlyPersister`, lines 30–135)

The Node `WriteStream` is modelled by two byte buffers: `pending` — bytes
accepted by `ws.write` but not yet confirmed on stable storage — and
`fileData` — bytes durably in the file.  `flush` (`ws.end` plus its
finish callback) forces the pending bytes out and resolves once they are
confirmed.  `logCommand`'s argument is always an array of `RespValue`s in
the source (`RespValue[]`), so the `!Array.isArray` guard is the
`command.isEmpty` check alone. -/

structure PersisterState : Type where
  closed : Bool
  pending : Str
  fileData : Str
deriving DecidableEq

/-- `logCommand(command)` (lines 67–84): dropped when closed or empty;
otherwise `ws.write(serialize(command))` appends to the pending bytes. -/
def logCommand (p : PersisterState) (command : List RespValue) : PersisterState :=
  if p.closed || command.isEmpty then p
  else ⟨p.closed, p.pending ++ serialize (.arr command), p.fileData⟩

/-- `flush()` (lines 108–124): its first statement is
`if (this.closed) return;`; otherwise the stream is ended and every
pending byte becomes durable. -/
def flush (p : PersisterState) : PersisterState :=
  if p.closed then p
  else ⟨p.closed, [], p.fileData ++ p.pending⟩

/-- `close()` (lines 126–134): sets `this.closed = true` *first*, then
awaits `this.flush()` (swallowing any error). -/
def close (p : PersisterState) : PersisterState :=
  flush ⟨true, p.pending, p.fileData⟩

/-- **C8.** `close()` does mark the persister closed (so every later
`logCommand` is dropped) and a second `close()` is an idempotent no-op
that cannot raise — but it does *not* flush the buffered bytes: it sets
`closed` before calling `flush`, whose first line returns immediately
when `closed` is set, so with one buffered logged command the file
contents stay empty and the pending bytes survive `close` unwritten.
The flushing part of the claim is false of the code. -/
theorem close_loses_buffered_bytes :
    (∀ p : PersisterState, (close p).closed = true)
    ∧ (∀ (p : PersisterState) (c : List RespValue), logCommand (close p) c = close p)
    ∧ (∀ p : PersisterState, close (close p) = close p)
    ∧ (logCommand ⟨false, [], []⟩
        [.str ['S', 'E', 'T'], .str ['k'], .str ['v']]).pending ≠ []
    ∧ (close (logCommand ⟨false, [], []⟩
        [.str ['S', 'E', 'T'], .str ['k'], .str ['v']])).fileData = []
    ∧ (close (logCommand ⟨false, [], []⟩
          [.str ['S', 'E', 'T'], .str ['k'], .str ['v']])).pending
        = (logCommand ⟨false, [], []⟩
          [.str ['S', 'E', 'T'], .str ['k'], .str ['v']]).pending := by
  refine ⟨fun p => rfl, fun p c => rfl, fun p => rfl, ?_, rfl, rfl⟩
  decide

/-! ## Replay (src/store/persistence.ts, `restoreFromFile`, lines 146–249) -/

/-- Decoding a serialized representable value with arbitrary trailing bytes
succeeds and ignores the trailer: the parser stops at the value's last
line.  (Generalizes `deserialize_serialize`; the restore loop decodes
`buffer.substring(arrayStart)`, which holds the next record followed by
the rest of the log.) -/
theorem deserialize_serialize_append (v : RespValue) (rest : Str)
    (hrep : Representable v) :
    deserialize (serialize v ++ rest) = .ok (stripBool v) := by
  have hnn : serialize v ++ rest ≠ [] := fun hh =>
    serialize_ne_nil v (List.append_eq_nil.mp hh).1
  have hne : ¬(serialize v ++ rest).isEmpty := by
    simp [List.isEmpty_iff, hnn]
  have hsplit : splitCRLF (serialize v ++ rest)
      = serializeLines v ++ splitCRLF rest := by
    rw [serialize_eq_joinLines v]
    exact splitCRLF_joinLines _ rest (serializeLines_noCRLF v hrep)
  have hcost : cost v ≤ 4 * (serializeLines v ++ splitCRLF rest).length + 16 := by
    have h1 := cost_le v
    have h2 : (serializeLines v).length ≤ (serializeLines v ++ splitCRLF rest).length := by
      simp
    omega
  have hparse := parse_ser v [] (splitCRLF rest)
    (4 * (serializeLines v ++ splitCRLF rest).length + 16) hrep hcost
  simp only [List.nil_append, List.length_nil, Nat.zero_add] at hparse
  unfold deserialize
  rw [if_neg hne, hsplit, hparse]

/-- `result.startsWith('-ERROR')` (line 196; `result` is a nonempty reply
string whenever the prefix holds, so the `result &&` truthiness guard
adds nothing). -/
def startsWithERROR (r : Str) : Bool :=
  (['-', 'E', 'R', 'R', 'O', 'R'] : Str).isPrefixOf r

/-- `buffer.indexOf('*')` (line 179), as an `Option` instead of `-1`. -/
def idxOfStar : Str → Option Nat
  | [] => none
  | c :: rest => if c = '*' then some 0 else (idxOfStar rest).map (· + 1)

/-- `buffer.lastIndexOf('*')` (line 168), as an `Option` instead of `-1`. -/
def lastIdxOfStar : Str → Option Nat
  | [] => none
  | c :: rest =>
    match lastIdxOfStar rest with
    | some i => some (i + 1)
    | none => if c = '*' then some 0 else none

/-- `const maxBufferSize = 10 * 1024 * 1024` (line 155). -/
def maxBufferSize : Nat := 10 * 1024 * 1024

/-- The buffer-size cap (lines 166–174): over the cap, cut to the last
array marker when it is at a positive index, else keep the last 1KB. -/
def trimBuffer (buffer : Str) : Str :=
  if maxBufferSize < buffer.length then
    match lastIdxOfStar buffer with
    | some i => if 0 < i then buffer.drop i else buffer.drop (buffer.length - 1024)
    | none => buffer.drop (buffer.length - 1024)
  else buffer

/-- The inner `while (true)` command loop (lines 177–233), with fuel making
the recursion structural: each recursive call drops at least one leading
character from a buffer in which a `'*'` was found, so the
`buffer.length + 1` fuel the chunk loop passes can never run out (the
out-of-fuel arm repeats the loop's `break`).  Result: `(ok, store,
leftover buffer)`; `ok = false` is the `return false` taken when a
replayed command's reply is an error.  The source calls
`deserialize(commandData)` a second time (line 206) on the same string
`memserv.parse` already decoded; both calls are the same pure function,
so the second `match` below repeats it faithfully. -/
def processBuf (now : Int) : Nat → St → Str → Bool × St × Str
  | 0, st, buffer => (true, st, buffer)
  | fuel + 1, st, buffer =>
    match idxOfStar buffer with
    | none => (true, st, buffer)
    | some arrayStart =>
      match parse (buffer.drop arrayStart) with
      | .error _ =>
        match idxOfStar (buffer.drop (arrayStart + 1)) with
        | some j => processBuf now fuel st (buffer.drop (arrayStart + 1 + j))
        | none => (true, st, buffer)
      | .ok none => (true, st, buffer)
      | .ok (some command) =>
        if startsWithERROR (executeCmd now st command).1 then
          (false, (executeCmd now st command).2, buffer)
        else
          match deserialize (buffer.drop arrayStart) with
          | .ok (.arr parsed) =>
            processBuf now fuel (executeCmd now st command).2
              (buffer.drop (arrayStart + (serialize (.arr parsed)).length))
          | _ =>
            processBuf now fuel (executeCmd now st command).2
              (buffer.drop (arrayStart + 1))

/-- The `for await (const chunk of readStream)` loop (lines 162–234) over
an explicit chunk list: append the chunk, apply the size cap, run the
command loop, and thread the leftover buffer; a failing command aborts the
whole restore with `false`. -/
def restoreChunks (now : Int) : List Str → St → Str → Bool × St
  | [], st, _ => (true, st)
  | chunk :: chunks, st, buffer =>
    match processBuf now ((trimBuffer (buffer ++ chunk)).length + 1) st
        (trimBuffer (buffer ++ chunk)) with
    | (false, st', _) => (false, st')
    | (true, st', buffer') => restoreChunks now chunks st' buffer'

/-- `restoreFromFile` on an existing file whose bytes arrive as `chunks`,
against an empty store (restoration mode suppresses re-logging, which the
execution model already omits): the success flag and the restored store. -/
def restoreFromChunks (now : Int) (chunks : List Str) : Bool × St :=
  restoreChunks now chunks [] []

/-! ## Log records

`MemServLight.execute` writes four record shapes to the log (lines
304–355): `['SET', key, value]` (+ `['EX', ttl.toString()]` when a ttl was
set), `['DEL', key]`, `['CLEAR']`, and `['EXPIRE', key, seconds.toString()]`,
each serialized as a RESP array of strings. -/

inductive LogRec : Type where
  | set : Str → Str → Option Int → LogRec
  | del : Str → LogRec
  | clear : LogRec
  | expire : Str → Int → LogRec
deriving DecidableEq

/-- The string tokens of a record as written by `logCommand` calls in
`execute`. -/
def recArgs : LogRec → List Str
  | .set k v none => [['S', 'E', 'T'], k, v]
  | .set k v (some t) => [['S', 'E', 'T'], k, v, ['E', 'X'], intToChars t]
  | .del k => [['D', 'E', 'L'], k]
  | .clear => [['C', 'L', 'E', 'A', 'R']]
  | .expire k s => [['E', 'X', 'P', 'I', 'R', 'E'], k, intToChars s]

/-- The command a record denotes when executed directly. -/
def cmdOfRec : LogRec → Cmd
  | .set k v t => .set k v t
  | .del k => .del k
  | .clear => .clear
  | .expire k s => .expire k s

/-- The bytes a record occupies in the log file. -/
def recBytes (r : LogRec) : Str := serialize (.arr ((recArgs r).map .str))

def recsBytes : List LogRec → Str
  | [] => []
  | r :: rs => recBytes r ++ recsBytes rs

/-- Well-formed records: their keys and values contain no CRLF (otherwise
the wire format cannot carry them — the spec's caller contract). -/
def wfRec : LogRec → Bool
  | .set k v _ => !hasCRLF k && !hasCRLF v
  | .del k => !hasCRLF k
  | .clear => true
  | .expire k _ => !hasCRLF k

/-- Direct execution of one record against the store. -/
def applyRec (now : Int) (st : St) (r : LogRec) : St :=
  (executeCmd now st (cmdOfRec r)).2

/-! ### Record-level facts -/

theorem mapStr_representable (ss : List Str) (h : ∀ s ∈ ss, hasCRLF s = false) :
    Representable (.arr (ss.map .str)) := by
  refine .arr ?_
  intro v hv
  rw [List.mem_map] at hv
  obtain ⟨s, hs, rfl⟩ := hv
  exact .str (h s hs)

theorem stripBoolList_mapStr (ss : List Str) :
    stripBoolList (ss.map .str) = ss.map .str := by
  induction ss with
  | nil => rfl
  | cons s ss ih =>
    show RespValue.str s :: stripBoolList (ss.map .str) = _
    rw [ih]
    rfl

theorem recArgs_noCRLF (r : LogRec) (h : wfRec r = true) :
    ∀ s ∈ recArgs r, hasCRLF s = false := by
  cases r with
  | set k v t =>
    have hk : hasCRLF k = false ∧ hasCRLF v = false := by
      simpa [wfRec, Bool.and_eq_true] using h
    cases t with
    | none =>
      intro s hs
      simp only [recArgs, List.mem_cons, List.not_mem_nil, or_false] at hs
      rcases hs with rfl | rfl | rfl
      · decide
      · exact hk.1
      · exact hk.2
    | some t =>
      intro s hs
      simp only [recArgs, List.mem_cons, List.not_mem_nil, or_false] at hs
      rcases hs with rfl | rfl | rfl | rfl | rfl
      · decide
      · exact hk.1
      · exact hk.2
      · decide
      · exact intToChars_noCRLF t
  | del k =>
    have hk : hasCRLF k = false := by simpa [wfRec] using h
    intro s hs
    simp only [recArgs, List.mem_cons, List.not_mem_nil, or_false] at hs
    rcases hs with rfl | rfl
    · decide
    · exact hk
  | clear =>
    intro s hs
    simp only [recArgs, List.mem_cons, List.not_mem_nil, or_false] at hs
    rcases hs with rfl
    decide
  | expire k t =>
    have hk : hasCRLF k = false := by simpa [wfRec] using h
    intro s hs
    simp only [recArgs, List.mem_cons, List.not_mem_nil, or_false] at hs
    rcases hs with rfl | rfl | rfl
    · decide
    · exact hk
    · exact intToChars_noCRLF t

/-- Decoding a record at the head of the remaining log recovers exactly its
token array. -/
theorem deserialize_recBytes (r : LogRec) (h : wfRec r = true) (rest : Str) :
    deserialize (recBytes r ++ rest) = .ok (.arr ((recArgs r).map .str)) := by
  unfold recBytes
  rw [deserialize_serialize_append _ rest (mapStr_representable _ (recArgs_noCRLF r h))]
  show Except.ok (RespValue.arr (stripBoolList ((recArgs r).map .str))) = _
  rw [stripBoolList_mapStr]

/-- The command shaper recognizes every record's token array as the command
the record denotes. -/
theorem parseCommand_recArgs (r : LogRec) :
    parseCommand (.arr ((recArgs r).map .str)) = some (cmdOfRec r) := by
  cases r with
  | set k v t =>
    cases t with
    | none => rfl
    | some t =>
      show (match (jsParseInt (intToChars t) : Option Int) with
          | some t' => some (Cmd.set k v (some t'))
          | none =>
            some (Cmd.set k (joinSpaces [v, ['E', 'X'], intToChars t]) none))
        = some (cmdOfRec (.set k v (some t)))
      rw [jsParseInt_intToChars t]
      rfl
  | del k => rfl
  | clear => rfl
  | expire k s =>
    show (match (jsParseInt (intToChars s) : Option Int) with
        | none => none
        | some s' => some (Cmd.expire k s'))
      = some (cmdOfRec (.expire k s))
    rw [jsParseInt_intToChars s]
    rfl

theorem parse_recBytes (r : LogRec) (h : wfRec r = true) (rest : Str) :
    parse (recBytes r ++ rest) = .ok (some (cmdOfRec r)) := by
  unfold parse
  rw [deserialize_recBytes r h rest]
  show Except.ok (parseCommand (RespValue.arr ((recArgs r).map .str))) = _
  rw [parseCommand_recArgs r]

/-- No record's reply starts with `-ERROR` (SET/CLEAR reply `+OK`,
DEL/EXPIRE reply `:1` or `:0`), so replaying a record never takes the
restore loop's `return false` branch. -/
theorem executeCmd_rec_not_error (now : Int) (st : St) (r : LogRec) :
    startsWithERROR (executeCmd now st (cmdOfRec r)).1 = false := by
  cases r with
  | set k v t => rfl
  | del k =>
    show startsWithERROR (if (dbDelete st k).2 then respONE else respZERO) = false
    cases h : (dbDelete st k).2
    · rw [if_neg (by simp [h])]; rfl
    · rw [if_pos (by simp [h])]; rfl
  | clear => rfl
  | expire k s =>
    show startsWithERROR (if (dbExpire st k s now).2 then respONE else respZERO) = false
    cases h : (dbExpire st k s now).2
    · rw [if_neg (by simp [h])]; rfl
    · rw [if_pos (by simp [h])]; rfl

theorem recBytes_ne_nil (r : LogRec) : recBytes r ≠ [] :=
  serialize_ne_nil _

theorem idxOfStar_recBytes (r : LogRec) (rest : Str) :
    idxOfStar (recBytes r ++ rest) = some 0 := rfl

/-! ### One iteration of the command loop per situation -/

/-- A well-formed record at the front of the buffer is decoded, executed,
and cut off exactly (the re-serialization has the same length as the
original bytes), costing one unit of fuel. -/
theorem processBuf_record_step (now : Int) (f : Nat) (st : St) (r : LogRec)
    (rest : Str) (hwf : wfRec r = true) :
    processBuf now (f + 1) st (recBytes r ++ rest)
      = processBuf now f (applyRec now st r) rest := by
  have hparse := parse_recBytes r hwf rest
  have hdeser := deserialize_recBytes r hwf rest
  show (match parse (recBytes r ++ rest) with
    | .error _ =>
      match idxOfStar ((recBytes r ++ rest).drop 1) with
      | some j => processBuf now f st ((recBytes r ++ rest).drop (1 + j))
      | none => (true, st, recBytes r ++ rest)
    | .ok none => (true, st, recBytes r ++ rest)
    | .ok (some command) =>
      if startsWithERROR (executeCmd now st command).1 then
        (false, (executeCmd now st command).2, recBytes r ++ rest)
      else
        match deserialize (recBytes r ++ rest) with
        | .ok (.arr parsed) =>
          processBuf now f (executeCmd now st command).2
            ((recBytes r ++ rest).drop (0 + (serialize (.arr parsed)).length))
        | _ =>
          processBuf now f (executeCmd now st command).2
            ((recBytes r ++ rest).drop 1)) = _
  rw [hparse]
  show (if startsWithERROR (executeCmd now st (cmdOfRec r)).1 then
      (false, (executeCmd now st (cmdOfRec r)).2, recBytes r ++ rest)
    else
      match deserialize (recBytes r ++ rest) with
      | .ok (.arr parsed) =>
        processBuf now f (executeCmd now st (cmdOfRec r)).2
          ((recBytes r ++ rest).drop (0 + (serialize (.arr parsed)).length))
      | _ =>
        processBuf now f (executeCmd now st (cmdOfRec r)).2
          ((recBytes r ++ rest).drop 1)) = _
  rw [if_neg (show ¬(startsWithERROR (executeCmd now st (cmdOfRec r)).1 = true) by
    rw [executeCmd_rec_not_error now st r]
    exact Bool.false_ne_true)]
  rw [hdeser]
  show processBuf now f (executeCmd now st (cmdOfRec r)).2
      ((recBytes r ++ rest).drop
        (0 + (serialize (.arr ((recArgs r).map .str))).length)) = _
  rw [show (0 + (serialize (.arr ((recArgs r).map RespValue.str))).length)
      = (recBytes r).length by rw [Nat.zero_add]; rfl]
  rw [List.drop_left]
  rfl

/-- An empty buffer has no array marker: the loop breaks immediately. -/
theorem processBuf_nil (now : Int) (f : Nat) (st : St) :
    processBuf now f st [] = (true, st, []) := by
  cases f with
  | zero => rfl
  | succ f => rfl

/-- A buffer holding only a partial record that starts at an array marker,
fails to decode, and contains no further marker: the loop breaks, keeping
the partial bytes and the store untouched, at any fuel. -/
theorem processBuf_stuck_partial (now : Int) (f : Nat) (st : St) (tail : Str)
    (he : ∃ e, parse ('*' :: tail) = .error e)
    (ht : idxOfStar tail = none) :
    processBuf now f st ('*' :: tail) = (true, st, '*' :: tail) := by
  cases f with
  | zero => rfl
  | succ f =>
    obtain ⟨e, he⟩ := he
    show (match parse ('*' :: tail) with
      | .error _ =>
        match idxOfStar tail with
        | some j => processBuf now f st (('*' :: tail).drop (1 + j))
        | none => (true, st, '*' :: tail)
      | .ok none => (true, st, '*' :: tail)
      | .ok (some command) =>
        if startsWithERROR (executeCmd now st command).1 then
          (false, (executeCmd now st command).2, '*' :: tail)
        else
          match deserialize ('*' :: tail) with
          | .ok (.arr parsed) =>
            processBuf now f (executeCmd now st command).2
              (('*' :: tail).drop (0 + (serialize (.arr parsed)).length))
          | _ =>
            processBuf now f (executeCmd now st command).2
              (('*' :: tail).drop 1)) = _
    rw [he]
    show (match idxOfStar tail with
      | some j => processBuf now f st (('*' :: tail).drop (1 + j))
      | none => (true, st, '*' :: tail)) = _
    rw [ht]

/-- Running the loop over a sequence of well-formed records followed by a
terminal segment that is either empty or a stuck partial record: every
record is applied in order and the terminal segment is kept. -/
theorem processBuf_records (now : Int) :
    ∀ (rs : List LogRec) (f : Nat) (st : St) (P : Str),
      (∀ r ∈ rs, wfRec r = true) →
      rs.length ≤ f →
      (P = [] ∨ ∃ tail, P = '*' :: tail
        ∧ (∃ e, parse P = .error e) ∧ idxOfStar tail = none) →
      processBuf now f st (recsBytes rs ++ P)
        = (true, rs.foldl (applyRec now) st, P) := by
  intro rs
  induction rs with
  | nil =>
    intro f st P _ _ hP
    rcases hP with rfl | ⟨tail, rfl, he, ht⟩
    · exact processBuf_nil now f st
    · exact processBuf_stuck_partial now f st tail he ht
  | cons r rs ih =>
    intro f st P hwf hf hP
    match f, hf with
    | 0, hf => simp at hf
    | f + 1, hf =>
      have h1 : recsBytes (r :: rs) ++ P = recBytes r ++ (recsBytes rs ++ P) := by
        show (recBytes r ++ recsBytes rs) ++ P = _
        rw [List.append_assoc]
      rw [h1, processBuf_record_step now f st r _ (hwf r (by simp))]
      rw [ih f (applyRec now st r) P (fun x hx => hwf x (by simp [hx]))
        (by simp at hf; omega) hP]
      rfl

theorem idxOfStar_skip (w : Str) (t : Str) (hstar : idxOfStar w = none) :
    idxOfStar (w ++ '\r' :: '\n' :: '*' :: t) = some (w.length + 2) := by
  induction w with
  | nil => rfl
  | cons c w ih =>
    by_cases hc : c = '*'
    · simp [idxOfStar, hc] at hstar
    · simp only [idxOfStar, if_neg hc, Option.map_eq_none'] at hstar
      show (if c = '*' then some 0
        else (idxOfStar (w ++ '\r' :: '\n' :: '*' :: t)).map (· + 1))
          = some ((c :: w).length + 2)
      rw [if_neg hc, ih hstar]
      rfl

/-- A corrupt span `'*' <content> CRLF` whose count field does not parse,
followed by the rest of the log starting at the next array marker: the
loop's catch path skips exactly to that next marker, leaving the store
untouched and costing one unit of fuel. -/
theorem processBuf_corrupt_step (now : Int) (f : Nat) (st : St) (w t : Str)
    (hw : jsParseInt w = none) (hcr : hasCRLF w = false)
    (hstar : idxOfStar w = none) :
    processBuf now (f + 1) st ('*' :: (w ++ '\r' :: '\n' :: '*' :: t))
      = processBuf now f st ('*' :: t) := by
  have hdes : deserialize ('*' :: w ++ '\r' :: '\n' :: '*' :: t)
      = .error (.resp ("Invalid array length: " ++ String.mk w) (some 0)) :=
    deserialize_invalid_array_count w ('*' :: t) hw hcr
  have hparse : parse ('*' :: (w ++ '\r' :: '\n' :: '*' :: t))
      = .error (.resp ("Invalid array length: " ++ String.mk w) (some 0)) := by
    unfold parse
    rw [show ('*' :: (w ++ '\r' :: '\n' :: '*' :: t))
      = '*' :: w ++ '\r' :: '\n' :: '*' :: t from rfl, hdes]
  show (match parse ('*' :: (w ++ '\r' :: '\n' :: '*' :: t)) with
    | .error _ =>
      match idxOfStar (w ++ '\r' :: '\n' :: '*' :: t) with
      | some j => processBuf now f st
          (('*' :: (w ++ '\r' :: '\n' :: '*' :: t)).drop (1 + j))
      | none => (true, st, '*' :: (w ++ '\r' :: '\n' :: '*' :: t))
    | .ok none => (true, st, '*' :: (w ++ '\r' :: '\n' :: '*' :: t))
    | .ok (some command) =>
      if startsWithERROR (executeCmd now st command).1 then
        (false, (executeCmd now st command).2, '*' :: (w ++ '\r' :: '\n' :: '*' :: t))
      else
        match deserialize ('*' :: (w ++ '\r' :: '\n' :: '*' :: t)) with
        | .ok (.arr parsed) =>
          processBuf now f (executeCmd now st command).2
            (('*' :: (w ++ '\r' :: '\n' :: '*' :: t)).drop
              (0 + (serialize (.arr parsed)).length))
        | _ =>
          processBuf now f (executeCmd now st command).2
            (('*' :: (w ++ '\r' :: '\n' :: '*' :: t)).drop 1)) = _
  rw [hparse]
  show (match idxOfStar (w ++ '\r' :: '\n' :: '*' :: t) with
    | some j => processBuf now f st
        (('*' :: (w ++ '\r' :: '\n' :: '*' :: t)).drop (1 + j))
    | none => (true, st, '*' :: (w ++ '\r' :: '\n' :: '*' :: t))) = _
  rw [idxOfStar_skip w t hstar]
  show processBuf now f st
      (('*' :: (w ++ '\r' :: '\n' :: '*' :: t)).drop (1 + (w.length + 2))) = _
  have hsplit : '*' :: (w ++ '\r' :: '\n' :: '*' :: t)
      = (('*' :: w) ++ ['\r', '\n']) ++ '*' :: t := by simp
  have hlen : 1 + (w.length + 2) = (('*' :: w) ++ ['\r', '\n']).length := by
    simp
    omega
  rw [hsplit, hlen, List.drop_left]

theorem recsBytes_length (rs : List LogRec) : rs.length ≤ (recsBytes rs).length := by
  induction rs with
  | nil => simp [recsBytes]
  | cons r rs ih =>
    show rs.length + 1 ≤ (recBytes r ++ recsBytes rs).length
    have h1 : 1 ≤ (recBytes r).length :=
      List.length_pos.mpr (recBytes_ne_nil r)
    simp only [List.length_append]
    omega

theorem trimBuffer_small (buffer : Str) (h : buffer.length ≤ maxBufferSize) :
    trimBuffer buffer = buffer := by
  unfold trimBuffer
  rw [if_neg (by omega)]

/-- The chunk loop over chunks that each end on a record boundary: every
chunk is consumed whole (the leftover buffer entering each iteration is
empty), so the loop folds direct execution over the concatenation, and any
remaining chunk list continues from the accumulated store. -/
theorem restoreChunks_records (now : Int) :
    ∀ (css : List (List LogRec)) (rest : List Str) (st : St),
      (∀ cs ∈ css, ∀ r ∈ cs, wfRec r = true) →
      (∀ cs ∈ css, (recsBytes cs).length ≤ maxBufferSize) →
      restoreChunks now (css.map recsBytes ++ rest) st []
        = restoreChunks now rest
            (css.foldl (fun acc cs => cs.foldl (applyRec now) acc) st) [] := by
  intro css
  induction css with
  | nil => intro rest st _ _; rfl
  | cons cs css ih =>
    intro rest st hwf hsz
    have hbuf : trimBuffer ([] ++ recsBytes cs) = recsBytes cs := by
      rw [List.nil_append]
      exact trimBuffer_small _ (hsz cs (by simp))
    have hrun : processBuf now ((recsBytes cs).length + 1) st (recsBytes cs)
        = (true, cs.foldl (applyRec now) st, []) := by
      have h := processBuf_records now cs ((recsBytes cs).length + 1) st []
        (hwf cs (by simp)) (by have := recsBytes_length cs; omega) (Or.inl rfl)
      rwa [List.append_nil] at h
    show (match processBuf now ((trimBuffer ([] ++ recsBytes cs)).length + 1) st
        (trimBuffer ([] ++ recsBytes cs)) with
      | (false, st', _) => (false, st')
      | (true, st', buffer') => restoreChunks now (css.map recsBytes ++ rest) st' buffer') = _
    rw [hbuf, hrun]
    show restoreChunks now (css.map recsBytes ++ rest) (cs.foldl (applyRec now) st) [] = _
    rw [ih rest (cs.foldl (applyRec now) st)
      (fun x hx => hwf x (by simp [hx])) (fun x hx => hsz x (by simp [hx]))]
    rfl

theorem recBytes_head (r : LogRec) : ∃ t, recBytes r = '*' :: t :=
  ⟨_, rfl⟩

/-! ## C1: replay equivalence -/

/-- **C1 counterexample.** The single well-formed record
`SET k hello` delivered in two chunks split inside the value
(`"*3\r\n+SET\r\n+k\r\n+he"` then `"llo\r\n"`): the first chunk already
decodes as a complete command (the split representation ends in a
truncated value line), so replay executes `SET k he` and discards the
rest; the replayed store maps `k` to `"he"` while direct execution maps it
to `"hello"`, and replay still reports success.  The claim's "delivered in
any chunking" is therefore false. -/
theorem replay_chunking_counterexample :
    (['*', '3', '\r', '\n', '+', 'S', 'E', 'T', '\r', '\n', '+', 'k', '\r', '\n',
        '+', 'h', 'e'] ++ ['l', 'l', 'o', '\r', '\n'])
      = recBytes (.set ['k'] ['h', 'e', 'l', 'l', 'o'] none)
    ∧ restoreFromChunks 0
        [['*', '3', '\r', '\n', '+', 'S', 'E', 'T', '\r', '\n', '+', 'k', '\r', '\n',
          '+', 'h', 'e'], ['l', 'l', 'o', '\r', '\n']]
      = (true, [(['k'], ⟨['h', 'e'], 0, none⟩)])
    ∧ applyRec 0 [] (.set ['k'] ['h', 'e', 'l', 'l', 'o'] none)
      = [(['k'], ⟨['h', 'e', 'l', 'l', 'o'], 0, none⟩)]
    ∧ ([(['k'], ⟨['h', 'e'], 0, none⟩)] : St)
      ≠ [(['k'], ⟨['h', 'e', 'l', 'l', 'o'], 0, none⟩)] := by
  refine ⟨rfl, rfl, rfl, by decide⟩

/-- **C1 (amended).** For every finite sequence of well-formed
SET/DEL/CLEAR/EXPIRE records (keys and values CRLF-free) delivered in
chunks that each end on a record boundary (each chunk within the 10MB
buffer cap), replay into an empty store succeeds and produces exactly the
store obtained by executing the same records directly in order against an
empty store; and with a trailing partial record appended as a further
chunk — bytes that start at an array marker but fail to decode and contain
no second marker — replay still succeeds with that same store, consuming
no effect of the partial record.  (For arbitrary chunkings the claim
fails: a split inside a record can decode as a shorter complete command —
see the counterexample.) -/
theorem replay_equals_direct (now : Int) (css : List (List LogRec)) (tail : Str)
    (hwf : ∀ cs ∈ css, ∀ r ∈ cs, wfRec r = true)
    (hsz : ∀ cs ∈ css, (recsBytes cs).length ≤ maxBufferSize)
    (htail : (∃ e, parse ('*' :: tail) = .error e) ∧ idxOfStar tail = none
      ∧ ('*' :: tail).length ≤ maxBufferSize) :
    restoreFromChunks now (css.map recsBytes)
        = (true, css.foldl (fun acc cs => cs.foldl (applyRec now) acc) [])
      ∧ restoreFromChunks now (css.map recsBytes ++ ['*' :: tail])
        = (true, css.foldl (fun acc cs => cs.foldl (applyRec now) acc) []) := by
  obtain ⟨he, hstar, hszP⟩ := htail
  constructor
  · unfold restoreFromChunks
    rw [show css.map recsBytes = css.map recsBytes ++ [] by simp,
      restoreChunks_records now css [] [] hwf hsz]
    rfl
  · unfold restoreFromChunks
    rw [restoreChunks_records now css ['*' :: tail] [] hwf hsz]
    have hbuf : trimBuffer ([] ++ '*' :: tail) = '*' :: tail := by
      rw [List.nil_append]
      exact trimBuffer_small _ hszP
    show (match processBuf now ((trimBuffer ([] ++ '*' :: tail)).length + 1)
        (css.foldl (fun acc cs => cs.foldl (applyRec now) acc) [])
        (trimBuffer ([] ++ '*' :: tail)) with
      | (false, st', _) => (false, st')
      | (true, st', buffer') => restoreChunks now [] st' buffer') = _
    rw [hbuf, processBuf_stuck_partial now _ _ tail he hstar]
    rfl

/-- Witness for the amended C1: two record-boundary chunks (`SET k v`,
then `DEL x; SET a b EX 5`) followed by the stuck partial record `"*3"`;
replay succeeds with exactly the directly-executed store. -/
theorem replay_equals_direct_witness :
    restoreFromChunks 0 [recsBytes [LogRec.set ['k'] ['v'] none],
        recsBytes [LogRec.del ['x'], LogRec.set ['a'] ['b'] (some 5)], ['*', '3']]
      = (true, [[LogRec.set ['k'] ['v'] none],
          [LogRec.del ['x'], LogRec.set ['a'] ['b'] (some 5)]].foldl
            (fun acc cs => cs.foldl (applyRec 0) acc) []) :=
  (replay_equals_direct 0
    [[LogRec.set ['k'] ['v'] none], [LogRec.del ['x'], LogRec.set ['a'] ['b'] (some 5)]]
    ['3'] (by decide) (by decide)
    ⟨⟨.resp "Error parsing array element 0: Unexpected end of input" (some 1), rfl⟩,
      rfl, by decide⟩).2

/-! ## C4: corrupted-record skip -/

/-- **C4 counterexample.** The corrupted span
`"*3\r\n+SET\r\n+x\r\n"` (an array declaring 3 elements but providing 2
before the next record) between the valid records `SET a 1` and `SET b 2`:
no decode error occurs, so the skip-to-next-marker path is never taken.
Instead the corrupt count swallows the following record as its third
(nested) element and replay executes `SET x "SET,b,2"`; the second valid
record is never applied (`b` is absent), contradicting the claim for this
malformed-record shape. -/
theorem replay_corruption_swallows_record :
    restoreFromChunks 0 [recBytes (.set ['a'] ['1'] none)
        ++ (['*', '3', '\r', '\n', '+', 'S', 'E', 'T', '\r', '\n', '+', 'x', '\r', '\n']
          ++ recBytes (.set ['b'] ['2'] none))]
      = (true, [(['a'], ⟨['1'], 0, none⟩),
          (['x'], ⟨['S', 'E', 'T', ',', 'b', ',', '2'], 0, none⟩)])
    ∧ mapGet [(['a'], ⟨['1'], 0, none⟩),
        (['x'], ⟨['S', 'E', 'T', ',', 'b', ',', '2'], 0, none⟩)] ['b'] = none
    ∧ applyRec 0 (applyRec 0 [] (.set ['a'] ['1'] none)) (.set ['b'] ['2'] none)
      = [(['a'], ⟨['1'], 0, none⟩), (['b'], ⟨['2'], 0, none⟩)] :=
  ⟨rfl, rfl, rfl⟩

/-- **C4 (amended).** For corruption that makes the decoder *throw* — a
span `'*' <content> CRLF` whose count field is non-numeric, with no array
marker inside the span — between two well-formed records in a single
chunk, the restore loop does skip forward to the next array marker,
permanently discards the corrupted span, and applies both valid records.
(Corruption whose declared count merely disagrees with its element count
can instead decode by swallowing the next record — see the
counterexample.) -/
theorem replay_skips_throwing_corruption (now : Int) (r1 r2 : LogRec) (w : Str)
    (h1 : wfRec r1 = true) (h2 : wfRec r2 = true)
    (hw : jsParseInt w = none) (hcr : hasCRLF w = false)
    (hstar : idxOfStar w = none)
    (hsz : (recBytes r1 ++ ('*' :: (w ++ '\r' :: '\n' :: recBytes r2))).length
      ≤ maxBufferSize) :
    restoreFromChunks now
        [recBytes r1 ++ ('*' :: (w ++ '\r' :: '\n' :: recBytes r2))]
      = (true, applyRec now (applyRec now [] r1) r2) := by
  obtain ⟨t2, ht2⟩ := recBytes_head r2
  have hlen : 2 ≤ (recBytes r1 ++ ('*' :: (w ++ '\r' :: '\n' :: recBytes r2))).length := by
    have hpos : 1 ≤ (recBytes r1).length := List.length_pos.mpr (recBytes_ne_nil r1)
    simp only [List.length_append, List.length_cons]
    omega
  have hrun : processBuf now
      ((recBytes r1 ++ ('*' :: (w ++ '\r' :: '\n' :: recBytes r2))).length + 1) []
      (recBytes r1 ++ ('*' :: (w ++ '\r' :: '\n' :: recBytes r2)))
      = (true, applyRec now (applyRec now [] r1) r2, []) := by
    obtain ⟨m, hm⟩ : ∃ m,
        (recBytes r1 ++ ('*' :: (w ++ '\r' :: '\n' :: recBytes r2))).length = m + 1 :=
      ⟨(recBytes r1 ++ ('*' :: (w ++ '\r' :: '\n' :: recBytes r2))).length - 1, by omega⟩
    obtain ⟨m', hm'⟩ : ∃ m', m = m' + 1 := ⟨m - 1, by omega⟩
    rw [hm, hm']
    rw [processBuf_record_step now (m' + 1 + 1) [] r1 _ h1]
    rw [ht2]
    rw [processBuf_corrupt_step now (m' + 1) (applyRec now [] r1) w t2 hw hcr hstar]
    rw [show ('*' :: t2 : Str) = recBytes r2 ++ [] by rw [← ht2]; simp]
    rw [processBuf_record_step now m' (applyRec now [] r1) r2 [] h2]
    rw [processBuf_nil]
  unfold restoreFromChunks
  have hbuf : trimBuffer ([] ++ (recBytes r1 ++ ('*' :: (w ++ '\r' :: '\n' :: recBytes r2))))
      = recBytes r1 ++ ('*' :: (w ++ '\r' :: '\n' :: recBytes r2)) := by
    rw [List.nil_append]
    exact trimBuffer_small _ hsz
  show (match processBuf now
      ((trimBuffer ([] ++ (recBytes r1 ++ ('*' :: (w ++ '\r' :: '\n' :: recBytes r2))))).length + 1)
      []
      (trimBuffer ([] ++ (recBytes r1 ++ ('*' :: (w ++ '\r' :: '\n' :: recBytes r2))))) with
    | (false, st', _) => (false, st')
    | (true, st', buffer') => restoreChunks now [] st' buffer') = _
  rw [hbuf, hrun]
  rfl

/-- Witness for the amended C4: the corrupt span `"*!\r\n"` between
`SET a 1` and `SET b 2` is skipped and both records are applied. -/
theorem replay_skips_throwing_corruption_witness :
    restoreFromChunks 0
        [recBytes (.set ['a'] ['1'] none)
          ++ ('*' :: (['!'] ++ '\r' :: '\n' :: recBytes (.set ['b'] ['2'] none)))]
      = (true, applyRec 0 (applyRec 0 [] (.set ['a'] ['1'] none))
          (.set ['b'] ['2'] none)) :=
  replay_skips_throwing_corruption 0 (.set ['a'] ['1'] none) (.set ['b'] ['2'] none)
    ['!'] (by decide) (by decide) (by decide) (by decide) (by decide) (by decide)

end MemServ
